import Mathlib

/-!
# Verification of `src/utils.cpp` (temporary-file registry, write counter, gzip check)

The C++ translation unit keeps three pieces of process-wide state:

* `vcfbwt::TempFile::temp_dir` together with the static object `handler`
  (`counter`, `filenames`): the temporary-file registry;
* the static object `writes_counter` (`bytes_wrote`);
* and it offers two free functions, `truncate_file` and `is_gzipped`.

The embedding below is sequential: every operation is a function from the state
before the call to the state after it, together with what the call returns and
the calls it makes to the C library (`std::remove`).  A `std::string` is a list of
characters, one per byte; `std::size_t` is a natural number kept below `2 ^ 64`.
-/

/-! ## Strings and numbers -/

/-- A `std::string`: the sequence of its bytes, one `Char` per byte. -/
abbrev Str := List Char

/-- The number of values of `std::size_t` (64 bits): unsigned arithmetic wraps modulo it. -/
def SIZE_MOD : Nat := 2 ^ 64

/-- The function `std::to_string` on an unsigned value: its decimal digits, most significant first. -/
def to_string (n : Nat) : Str := Nat.toDigits 10 n

/-- The NUL byte that ends a C string. -/
def NUL : Char := Char.ofNat 0

/-- The constructor `std::string(const char*)`: the bytes of the buffer before its first NUL. -/
def c_string (buf : Str) : Str := buf.takeWhile (fun c => c != NUL)

/-- The value a decimal digit string denotes (the converse of `to_string`). -/
def decimalValue (s : Str) : Nat := s.foldl (fun acc c => 10 * acc + (c.toNat - 48)) 0

/-- The last `_`-separated component of a string: the bytes after its last underscore. -/
def lastComponent (s : Str) : Str := (s.reverse.takeWhile (fun c => c != '_')).reverse

/-! ## `std::set<std::string>`

A `std::set<std::string>` orders its elements by `operator<` on strings (lexicographic on
bytes) and holds no two equivalent ones; iteration visits them in increasing order.  It is a
strictly increasing list. -/

namespace StringSet

/-- The function `std::set::insert` on the sorted element list: the position is found with `<` alone. -/
def insertList (x : Str) : List Str → List Str
  | [] => [x]
  | y :: ys =>
    if x < y then x :: y :: ys
    else if y < x then y :: insertList x ys
    else y :: ys

/-- The function `std::set::erase(key)` on the sorted element list. -/
def eraseList (x : Str) : List Str → List Str
  | [] => []
  | y :: ys =>
    if x < y then y :: ys
    else if y < x then y :: eraseList x ys
    else ys

theorem mem_insertList (x a : Str) (l : List Str) :
    a ∈ insertList x l ↔ a = x ∨ a ∈ l := by
  induction l with
  | nil => simp [insertList]
  | cons y ys ih =>
    unfold insertList
    split_ifs with h1 h2
    · simp
    · simp only [List.mem_cons, ih]; tauto
    · have hxy : x = y := le_antisymm (not_lt.mp h2) (not_lt.mp h1)
      subst hxy
      simp

theorem sorted_insertList (x : Str) (l : List Str) (h : l.Pairwise (· < ·)) :
    (insertList x l).Pairwise (· < ·) := by
  induction l with
  | nil => simp [insertList]
  | cons y ys ih =>
    unfold insertList
    rw [List.pairwise_cons] at h
    split_ifs with h1 h2
    · refine List.pairwise_cons.mpr ⟨?_, List.pairwise_cons.mpr h⟩
      intro a ha
      rcases List.mem_cons.mp ha with rfl | ha
      · exact h1
      · exact lt_trans h1 (h.1 a ha)
    · refine List.pairwise_cons.mpr ⟨?_, ih h.2⟩
      intro a ha
      rcases (mem_insertList x a ys).mp ha with rfl | ha
      · exact h2
      · exact h.1 a ha
    · exact List.pairwise_cons.mpr h

theorem mem_eraseList (x a : Str) (l : List Str) (h : l.Pairwise (· < ·)) :
    a ∈ eraseList x l ↔ a ≠ x ∧ a ∈ l := by
  induction l with
  | nil => simp [eraseList]
  | cons y ys ih =>
    unfold eraseList
    rw [List.pairwise_cons] at h
    split_ifs with h1 h2
    · constructor
      · intro ha
        refine ⟨?_, ha⟩
        rintro rfl
        rcases List.mem_cons.mp ha with rfl | ha
        · exact lt_irrefl _ h1
        · exact lt_asymm h1 (h.1 _ ha)
      · exact fun ha => ha.2
    · simp only [List.mem_cons, ih h.2]
      constructor
      · rintro (rfl | ⟨hne, ha⟩)
        · exact ⟨ne_of_lt h2, Or.inl rfl⟩
        · exact ⟨hne, Or.inr ha⟩
      · rintro ⟨hne, rfl | ha⟩
        · exact Or.inl rfl
        · exact Or.inr ⟨hne, ha⟩
    · have hxy : x = y := le_antisymm (not_lt.mp h2) (not_lt.mp h1)
      subst hxy
      constructor
      · intro ha
        exact ⟨ne_of_gt (h.1 a ha), List.mem_cons_of_mem _ ha⟩
      · rintro ⟨hne, ha⟩
        rcases List.mem_cons.mp ha with rfl | ha
        · exact absurd rfl hne
        · exact ha

theorem sorted_eraseList (x : Str) (l : List Str) (h : l.Pairwise (· < ·)) :
    (eraseList x l).Pairwise (· < ·) := by
  induction l with
  | nil => simp [eraseList]
  | cons y ys ih =>
    unfold eraseList
    have h0 := h
    rw [List.pairwise_cons] at h
    split_ifs with h1 h2
    · exact h0
    · refine List.pairwise_cons.mpr ⟨?_, ih h.2⟩
      intro a ha
      exact h.1 a ((mem_eraseList x a ys h.2).mp ha).2
    · exact h.2

end StringSet

/-- A `std::set<std::string>`: its elements in iteration order, strictly increasing. -/
structure StringSet where
  /-- The elements, in the order a range-for loop visits them. -/
  elems : List Str
  /-- The container invariant: strictly increasing, hence free of duplicates. -/
  sorted : elems.Pairwise (· < ·)

namespace StringSet

/-- A default-constructed, empty set. -/
def empty : StringSet := ⟨[], List.Pairwise.nil⟩

/-- The member function `std::set::insert(value)`. -/
def insert (x : Str) (s : StringSet) : StringSet :=
  ⟨insertList x s.elems, sorted_insertList x s.elems s.sorted⟩

/-- The member function `std::set::erase(key)`. -/
def erase (x : Str) (s : StringSet) : StringSet :=
  ⟨eraseList x s.elems, sorted_eraseList x s.elems s.sorted⟩

/-- The member function `std::set::clear()`. -/
def clear (_s : StringSet) : StringSet := empty

end StringSet

/-! ## The temporary-file registry -/

/-- One call `std::remove(path.c_str())` made by the program, with the value the C library
returned for it.  The program never reads `result`. -/
structure RemoveCall where
  /-- The string whose `c_str()` was passed. -/
  path : Str
  /-- The `int` that `std::remove` returned. -/
  result : Int

/-- The static object `handler`: the allocation counter and the set of live file names.  The mutex
`tempfile_lock` has no sequential content and is left out. -/
structure Handler where
  /-- The field `std::size_t counter`. -/
  counter : Nat
  /-- The field `std::set<std::string> filenames`. -/
  filenames : StringSet

namespace Handler

/-- The constructor `Handler() : counter(0) {}`. -/
def init : Handler := ⟨0, StringSet.empty⟩

/-- The destructor `~Handler()`: calls `std::remove` on every element of `filenames`, in
iteration order, discards each result, then clears the set.  `std_remove` gives the value the C
library returns for each path. -/
def destructor (std_remove : Str → Int) (h : Handler) : Handler × List RemoveCall :=
  ({ h with filenames := h.filenames.clear },
   h.filenames.elems.map (fun filename => ⟨filename, std_remove filename⟩))

end Handler

/-- The registry state: the static `TempFile::temp_dir` and the static object `handler`. -/
structure Registry where
  /-- The static `std::string vcfbwt::TempFile::temp_dir`. -/
  temp_dir : Str
  /-- The static object `handler`. -/
  handler : Handler

/-- What `TempFile::remove` leaves behind. -/
structure RemoveResult where
  /-- The registry after the call. -/
  state : Registry
  /-- The caller's string (passed by reference) after the call. -/
  filename : Str
  /-- The `std::remove` calls issued, in order. -/
  calls : List RemoveCall

namespace vcfbwt.TempFile

/-- The constant `DEFAULT_TEMP_DIR = "."`. -/
def DEFAULT_TEMP_DIR : Str := ['.']

/-- The registry at program start: `temp_dir = DEFAULT_TEMP_DIR`, `handler` freshly constructed. -/
def init : Registry := ⟨DEFAULT_TEMP_DIR, Handler.init⟩

/-- The function `TempFile::setDirectory(directory)`. -/
def setDirectory (directory : Str) (s : Registry) : Registry :=
  if directory.isEmpty then { s with temp_dir := DEFAULT_TEMP_DIR }
  else if directory[directory.length - 1]? != some '/' then { s with temp_dir := directory }
  else { s with temp_dir := directory.take (directory.length - 1) }

/-- The function `TempFile::getName(name_part)`.  `hostname` is the content of the 32-byte buffer
after `gethostname(hostname, 32)`, and `pid` the value of `pid()`.  Returns the file name and the
registry after the call. -/
def getName (hostname : Str) (pid : Nat) (name_part : Str) (s : Registry) : Str × Registry :=
  let hostname := hostname.set 31 NUL
  let filename := s.temp_dir ++ ['/'] ++ name_part ++ ['_']
    ++ c_string hostname ++ ['_']
    ++ to_string pid ++ ['_']
    ++ to_string s.handler.counter
  (filename,
   { s with handler :=
      { counter := (s.handler.counter + 1) % SIZE_MOD
        filenames := s.handler.filenames.insert filename } })

/-- The function `TempFile::remove(filename)`.  `std_remove` gives the value the C library returns
for the deletion; it is discarded. -/
def remove (std_remove : Str → Int) (filename : Str) (s : Registry) : RemoveResult :=
  if !filename.isEmpty then
    { state := { s with handler := { s.handler with filenames := s.handler.filenames.erase filename } }
      filename := []
      calls := [⟨filename, std_remove filename⟩] }
  else
    { state := s, filename := filename, calls := [] }

end vcfbwt.TempFile

/-! ### Sequences of registry calls -/

/-- One call into the registry, with what the environment answers during it. -/
inductive Op where
  /-- A call `TempFile::setDirectory(directory)`. -/
  | setDirectory (directory : Str)
  /-- A call `TempFile::getName(name_part)` during which `gethostname` fills the buffer with
  `hostname` and `pid()` is `pid`. -/
  | getName (hostname : Str) (pid : Nat) (name_part : Str)
  /-- A call `TempFile::remove(filename)` during which `std::remove` returns `result`. -/
  | remove (filename : Str) (result : Int)

/-- A run of the program so far: the registry, the strings `getName` has returned (oldest
first) and the `std::remove` calls made (oldest first). -/
structure Exec where
  /-- The registry state. -/
  state : Registry
  /-- The values returned by the `getName` calls. -/
  returned : List Str
  /-- The `std::remove` calls made by the `remove` calls. -/
  calls : List RemoveCall

namespace Exec

/-- The run at program start. -/
def init : Exec := ⟨vcfbwt.TempFile.init, [], []⟩

/-- One more call. -/
def step (e : Exec) : Op → Exec
  | .setDirectory directory =>
    { e with state := vcfbwt.TempFile.setDirectory directory e.state }
  | .getName hostname pid name_part =>
    let r := vcfbwt.TempFile.getName hostname pid name_part e.state
    { e with state := r.2, returned := e.returned ++ [r.1] }
  | .remove filename result =>
    let r := vcfbwt.TempFile.remove (fun _ => result) filename e.state
    { e with state := r.state, calls := e.calls ++ r.calls }

end Exec

/-- The run made of the calls `ops`, in order, from program start. -/
def exec (ops : List Op) : Exec := ops.foldl Exec.step Exec.init

/-- The number of `getName` calls in a sequence. -/
def allocations (ops : List Op) : Nat :=
  ops.countP (fun op => match op with | .getName _ _ _ => true | _ => false)

/-- The number of `remove` calls in a sequence. -/
def releases (ops : List Op) : Nat :=
  ops.countP (fun op => match op with | .remove _ _ => true | _ => false)

/-- The string `p` was allocated and not released afterwards: some `getName` call of the sequence
returned `p`, and no later call of the sequence is `remove(p)`. -/
def Outstanding (ops : List Op) (p : Str) : Prop :=
  ∃ (before after : List Op) (hostname : Str) (pid : Nat) (name_part : Str),
    ops = before ++ Op.getName hostname pid name_part :: after ∧
    (vcfbwt.TempFile.getName hostname pid name_part (exec before).state).1 = p ∧
    ∀ result, Op.remove p result ∉ after

/-- One step of the check `releasesLive`: the run so far and whether every `remove` so far was
passed a string that was in `filenames` at the time of the call. -/
def liveStep (acc : Exec × Bool) (op : Op) : Exec × Bool :=
  (acc.1.step op,
   acc.2 && (match op with
     | .remove filename _ => decide (filename ∈ acc.1.state.handler.filenames.elems)
     | _ => true))

/-- Whether every `remove` of the sequence is passed a string that is in `filenames` at the time of
the call: a path that was allocated and has not been released since. -/
def releasesLive (ops : List Op) : Bool :=
  (ops.foldl liveStep (Exec.init, true)).2

/-! ## The write counter -/

/-- The static object `writes_counter`; the mutex `write_stats_lock` is left out. -/
structure WritesCounter where
  /-- The field `std::size_t bytes_wrote`. -/
  bytes_wrote : Nat

namespace WritesCounter

/-- The constructor `WritesCounter() : bytes_wrote(0)`. -/
def init : WritesCounter := ⟨0⟩

/-- The destructor `~WritesCounter()`: the text written to `std::cout`; `std::endl` is the final newline. -/
def destructor (w : WritesCounter) : Str :=
  "[Disk Write (bytes): ".toList ++ to_string w.bytes_wrote ++ "]".toList ++ ['\n']

end WritesCounter

/-- The function `DiskWrites::update(num_of_bytes)`: `bytes_wrote += num_of_bytes` on `std::size_t`. -/
def vcfbwt.DiskWrites.update (num_of_bytes : Nat) (w : WritesCounter) : WritesCounter :=
  { w with bytes_wrote := (w.bytes_wrote + num_of_bytes) % SIZE_MOD }

/-- The counter after the calls `update(x)` for `x` in `xs`, in order, from program start. -/
def updates (xs : List Nat) : WritesCounter :=
  xs.foldl (fun w x => vcfbwt.DiskWrites.update x w) WritesCounter.init

/-! ## Input streams and the gzip check -/

/-- A `std::ifstream`: the bytes its source delivers, the get position, the three state bits of
`std::ios_base`, and whether its stream buffer can be repositioned. -/
structure IfStream where
  /-- The bytes of the file, or the bytes a pipe delivers. -/
  data : Str
  /-- The get position. -/
  pos : Nat
  /-- The bit `std::ios_base::eofbit`. -/
  eofbit : Bool
  /-- The bit `std::ios_base::failbit`. -/
  failbit : Bool
  /-- The bit `std::ios_base::badbit`. -/
  badbit : Bool
  /-- Whether `rdbuf()->pubseekpos` succeeds: it does on an open regular file, and returns
  `pos_type(-1)` on a FIFO, a pipe or a terminal. -/
  seekable : Bool
deriving DecidableEq

namespace IfStream

/-- The member `std::istream::seekg(pos)` (C++11): clears `eofbit`, then, as an unformatted input
function, sets `failbit` and does nothing more when the stream is not good; otherwise calls
`rdbuf()->pubseekpos(pos)`, which moves the get position, or fails, in which case `seekg` sets
`failbit`. -/
def seekg (p : Nat) (s : IfStream) : IfStream :=
  let s := { s with eofbit := false }
  if s.failbit || s.badbit then { s with failbit := true }
  else if s.seekable then { s with pos := p }
  else { s with failbit := true }

/-- The member `std::istream::get(char& c)`: when the stream is not good it sets `failbit` and leaves
`c` alone; at end of file it sets `eofbit` and `failbit` and leaves `c` alone; otherwise it stores
the next byte in `c` and advances.  Returns the value of `c` after the call and the stream. -/
def get (c : Char) (s : IfStream) : Char × IfStream :=
  if s.eofbit || s.failbit || s.badbit then (c, { s with failbit := true })
  else
    match s.data[s.pos]? with
    | some b => (b, { s with pos := s.pos + 1 })
    | none => (c, { s with eofbit := true, failbit := true })

end IfStream

/-- The function `is_gzipped(in)`.  The locals `f` and `s` are declared without initialiser: `f0` and
`s0` are the values they happen to hold.  Returns the result and the stream after the call. -/
def vcfbwt.is_gzipped (f0 s0 : Char) (inp : IfStream) : Bool × IfStream :=
  let inp := inp.seekg 0
  let (f, inp) := inp.get f0
  let (s, inp) := inp.get s0
  let inp := inp.seekg 0
  ((f == Char.ofNat 0x1F) && (s == Char.ofNat 0x8B), inp)

/-! ## Truncation -/

/-- The conversion of a `std::size_t` to `off_t`, the type of the length parameter of `truncate`.
The type `off_t` is declared in the system headers; on the platform whose `std::size_t` has 64
bits it is the signed 64-bit integer, so the values from `2 ^ 63` on become negative. -/
def to_off_t (n : Nat) : Int :=
  if n % SIZE_MOD < 2 ^ 63 then ((n % SIZE_MOD : Nat) : Int)
  else ((n % SIZE_MOD : Nat) : Int) - 2 ^ 64

/-- One call `truncate(path.c_str(), length)` made by the program. -/
structure TruncateCall where
  /-- The string whose `c_str()` was passed. -/
  path : Str
  /-- The `off_t` length that was passed: `new_size_in_bytes` after its conversion. -/
  length : Int
deriving DecidableEq

/-- What a call of `truncate_file` does: the `truncate` calls it makes and the messages it hands to
`spdlog::error` (with the arguments formatted in), both in order.  The function returns `void`. -/
structure TruncateResult where
  /-- The `truncate` calls made. -/
  calls : List TruncateCall
  /-- The messages handed to `spdlog::error`. -/
  errors : List Str
deriving DecidableEq

/-- The function `truncate_file(file_name, new_size_in_bytes)`.  `truncate` gives the `int` the
operating system returns for a path and an `off_t` length. -/
def vcfbwt.truncate_file (truncate : Str → Int → Int) (file_name : Str)
    (new_size_in_bytes : Nat) : TruncateResult :=
  let res := truncate file_name (to_off_t new_size_in_bytes)
  { calls := [⟨file_name, to_off_t new_size_in_bytes⟩]
    errors :=
      if res != 0 then
        ["Error while truncating ".toList ++ file_name ++ " to ".toList
          ++ to_string new_size_in_bytes ++ " bytes".toList]
      else [] }

/-! ## Lock scopes

The bodies of the functions as far as the mutexes are concerned.  In `~Handler`, `setDirectory`,
`getName` and `remove` the guard is written `std::lock_guard<std::mutex>(handler.tempfile_lock);`:
the operand is not a declarator, so this is an expression statement that builds an unnamed
temporary guard, destroyed at the end of the statement.  In `DiskWrites::update` the guard is the
named local `lock`, which lives to the end of the block. -/

/-- The shared variables of the translation unit. -/
inductive SharedVar where
  /-- The static `TempFile::temp_dir`. -/
  | temp_dir
  /-- The field `handler.counter`. -/
  | counter
  /-- The field `handler.filenames`. -/
  | filenames
  /-- The field `writes_counter.bytes_wrote`. -/
  | bytes_wrote
deriving DecidableEq

/-- A statement of a block, as far as the mutex and the shared variables are concerned. -/
inductive Stmt where
  /-- The expression statement `std::lock_guard<std::mutex>(m);`: a temporary guard locks `m` and
  is destroyed, unlocking `m`, before the next statement. -/
  | guardTemporary
  /-- The declaration `std::lock_guard<std::mutex> lock(m);`: the guard locks `m` and is destroyed
  at the end of the block. -/
  | guardNamed
  /-- A statement that reads or writes the shared variable `v`. -/
  | access (v : SharedVar)
deriving DecidableEq

/-- Runs the statements of one block, given whether the thread holds the mutex on entry: for each
access, in order, the variable and whether the thread holds the mutex at that moment. -/
def heldAtAccesses : Bool → List Stmt → List (SharedVar × Bool)
  | _, [] => []
  | _, .guardTemporary :: rest => heldAtAccesses false rest
  | _, .guardNamed :: rest => heldAtAccesses true rest
  | held, .access v :: rest => (v, held) :: heldAtAccesses held rest

/-- The body of `~Handler` (lines 28-33): the guard statement, the loop over `filenames`, `clear`. -/
def Handler.destructor_body : List Stmt :=
  [.guardTemporary, .access .filenames, .access .filenames]

namespace vcfbwt.TempFile

/-- The body of `setDirectory` (lines 40-43): the guard statement, the assignment to `temp_dir`. -/
def setDirectory_body : List Stmt :=
  [.guardTemporary, .access .temp_dir]

/-- The inner block of `getName` (lines 54-60): the guard statement, the reads of `temp_dir` and
`counter` that build the name, the insertion into `filenames`, the increment of `counter`. -/
def getName_body : List Stmt :=
  [.guardTemporary, .access .temp_dir, .access .counter, .access .filenames, .access .counter]

/-- The inner block of `remove` (lines 73-74): the guard statement, the erasure from `filenames`. -/
def remove_body : List Stmt :=
  [.guardTemporary, .access .filenames]

/-- Lines 55-58 of `getName`: the name built from `temp_dir` and `counter` as they are read. -/
def getName_filename (hostname : Str) (pid : Nat) (name_part : Str) (s : Registry) : Str :=
  s.temp_dir ++ ['/'] ++ name_part ++ ['_']
    ++ c_string (hostname.set 31 NUL) ++ ['_']
    ++ to_string pid ++ ['_']
    ++ to_string s.handler.counter

/-- Lines 59-60 of `getName`: the insertion of the name and the increment of the counter. -/
def getName_commit (filename : Str) (s : Registry) : Registry :=
  { s with handler :=
      { counter := (s.handler.counter + 1) % SIZE_MOD
        filenames := s.handler.filenames.insert filename } }

end vcfbwt.TempFile

/-- The body of `DiskWrites::update` (lines 118-119): the named guard, the addition. -/
def vcfbwt.DiskWrites.update_body : List Stmt :=
  [.guardNamed, .access .bytes_wrote]

/-- Two threads of one process, each inside a call `getName(name_part)` with the same hint: the
registry and, for each thread, its local `filename` once lines 55-58 have run. -/
structure TwoCalls where
  /-- The shared registry. -/
  state : Registry
  /-- The local `filename` of the first thread. -/
  first : Option Str
  /-- The local `filename` of the second thread. -/
  second : Option Str

/-- A turn of the scheduler: which thread runs, and which part of `getName`. -/
inductive Turn where
  /-- The thread runs lines 55-58. -/
  | build (secondThread : Bool)
  /-- The thread runs lines 59-60. -/
  | commit (secondThread : Bool)

/-- One turn of two concurrent calls `getName(name_part)`. -/
def TwoCalls.turn (hostname : Str) (pid : Nat) (name_part : Str) (c : TwoCalls) : Turn → TwoCalls
  | .build false =>
    { c with first := some (vcfbwt.TempFile.getName_filename hostname pid name_part c.state) }
  | .build true =>
    { c with second := some (vcfbwt.TempFile.getName_filename hostname pid name_part c.state) }
  | .commit false =>
    match c.first with
    | some filename => { c with state := vcfbwt.TempFile.getName_commit filename c.state }
    | none => c
  | .commit true =>
    match c.second with
    | some filename => { c with state := vcfbwt.TempFile.getName_commit filename c.state }
    | none => c

/-- Two concurrent calls `getName(name_part)` from program start under a schedule. -/
def twoCalls (hostname : Str) (pid : Nat) (name_part : Str) (schedule : List Turn) : TwoCalls :=
  schedule.foldl (TwoCalls.turn hostname pid name_part) ⟨vcfbwt.TempFile.init, none, none⟩

/-! ## Sample inputs -/

/-- The 32-byte buffer that `gethostname` leaves for the host name `name`: the name, padded with
NUL bytes and cut to 32 bytes. -/
def hostBuffer (name : Str) : Str := (name ++ List.replicate 32 NUL).take 32

/-- A sample run: two allocations, a change of directory, the release of the first name and a
third allocation. -/
def sampleOps : List Op :=
  [ .getName (hostBuffer "node7".toList) 4242 "tmp".toList,
    .getName (hostBuffer "node7".toList) 4242 "tmp".toList,
    .setDirectory "/scratch/".toList,
    .remove "./tmp_node7_4242_0".toList 0,
    .getName (hostBuffer "node8".toList) 17 "tmp".toList ]

/-- The registry after the first two calls of the sample run: two names are tracked. -/
def sampleState : Registry := (exec (sampleOps.take 2)).state

/-- The call `getName("")` on a host whose name is empty, in process `0`. -/
def plainGetName : Op := Op.getName (hostBuffer []) 0 []

/-- The run of `2 ^ 64 - 1` calls of `getName`: it brings the counter to the largest `std::size_t`. -/
def wrapOps : List Op := List.replicate (2 ^ 64 - 1) plainGetName

/-- A stream on a three-byte file that starts with the gzip magic number, read up to its end:
the get position is `3` and `eofbit` is set. -/
def sampleStream : IfStream :=
  { data := [Char.ofNat 0x1F, Char.ofNat 0x8B, 'x'], pos := 3, eofbit := true,
    failbit := false, badbit := false, seekable := true }

/-- A stream just opened on the same file: position `0`, no state bit set. -/
def freshStream : IfStream :=
  { data := [Char.ofNat 0x1F, Char.ofNat 0x8B, 'x'], pos := 0, eofbit := false,
    failbit := false, badbit := false, seekable := true }

/-- The state of a stream on the same file after a loop `while (in.get(c))` has read the three
bytes and failed on the fourth `get`: the position is `3`, `eofbit` and `failbit` are set. -/
def drainedStream : IfStream :=
  { data := [Char.ofNat 0x1F, Char.ofNat 0x8B, 'x'], pos := 3, eofbit := true,
    failbit := true, badbit := false, seekable := true }

/-- A stream just opened on a FIFO through which the same three bytes arrive: no state bit is
set, and the stream buffer cannot be repositioned. -/
def pipeStream : IfStream :=
  { data := [Char.ofNat 0x1F, Char.ofNat 0x8B, 'x'], pos := 0, eofbit := false,
    failbit := false, badbit := false, seekable := false }

/-- An operating system whose `truncate` rejects a negative length and accepts any other. -/
def sampleTruncate (_path : Str) (length : Int) : Int := if length < 0 then -1 else 0

/-- A stream just opened on an empty file. -/
def emptyStream : IfStream :=
  { data := [], pos := 0, eofbit := false, failbit := false, badbit := false, seekable := true }

/-- A stream just opened on a file that holds the single byte `0x1F`. -/
def oneByteStream : IfStream :=
  { data := [Char.ofNat 0x1F], pos := 0, eofbit := false, failbit := false, badbit := false,
    seekable := true }

open vcfbwt.TempFile

/-! ## Decimal rendering -/

theorem toDigitsCore_append (fuel : Nat) : ∀ (n : Nat) (ds : List Char),
    Nat.toDigitsCore 10 fuel n ds = Nat.toDigitsCore 10 fuel n [] ++ ds := by
  induction fuel with
  | zero => intro n ds; simp [Nat.toDigitsCore]
  | succ fuel ih =>
    intro n ds
    simp only [Nat.toDigitsCore]
    split_ifs with h
    · simp
    · rw [ih (n / 10) (Nat.digitChar (n % 10) :: ds), ih (n / 10) [Nat.digitChar (n % 10)]]
      simp

theorem digitChar_toNat (d : Nat) (h : d < 10) : (Nat.digitChar d).toNat - 48 = d := by
  interval_cases d <;> rfl

theorem digitChar_ne_underscore (d : Nat) (h : d < 10) : Nat.digitChar d ≠ '_' := by
  interval_cases d <;> decide

theorem decimalValue_snoc (xs : Str) (c : Char) :
    decimalValue (xs ++ [c]) = 10 * decimalValue xs + (c.toNat - 48) := by
  simp [decimalValue, List.foldl_append]

theorem decimalValue_toDigitsCore (fuel : Nat) : ∀ n : Nat, n < fuel →
    decimalValue (Nat.toDigitsCore 10 fuel n []) = n := by
  induction fuel with
  | zero => intro n h; omega
  | succ fuel ih =>
    intro n hn
    simp only [Nat.toDigitsCore]
    split_ifs with h
    · have h10 : n < 10 := by omega
      have hm : n % 10 = n := Nat.mod_eq_of_lt h10
      rw [hm]
      simp [decimalValue, digitChar_toNat n h10]
    · rw [toDigitsCore_append fuel (n / 10) [Nat.digitChar (n % 10)], decimalValue_snoc,
        ih (n / 10) (by omega), digitChar_toNat (n % 10) (Nat.mod_lt n (by decide))]
      omega

theorem decimalValue_to_string (n : Nat) : decimalValue (to_string n) = n :=
  decimalValue_toDigitsCore (n + 1) n (Nat.lt_succ_self n)

theorem to_string_injective {m n : Nat} (h : to_string m = to_string n) : m = n := by
  rw [← decimalValue_to_string m, ← decimalValue_to_string n, h]

theorem toDigitsCore_no_underscore (fuel : Nat) : ∀ (n : Nat) (c : Char),
    c ∈ Nat.toDigitsCore 10 fuel n [] → c ≠ '_' := by
  induction fuel with
  | zero => intro n c hc; simp [Nat.toDigitsCore] at hc
  | succ fuel ih =>
    intro n c hc
    simp only [Nat.toDigitsCore] at hc
    split_ifs at hc with h
    · rw [List.mem_singleton] at hc
      rw [hc]
      exact digitChar_ne_underscore _ (Nat.mod_lt n (by decide))
    · rw [toDigitsCore_append fuel (n / 10) [Nat.digitChar (n % 10)], List.mem_append,
        List.mem_singleton] at hc
      rcases hc with hc | hc
      · exact ih _ c hc
      · rw [hc]
        exact digitChar_ne_underscore _ (Nat.mod_lt n (by decide))

theorem to_string_no_underscore (n : Nat) (c : Char) (hc : c ∈ to_string n) : c ≠ '_' :=
  toDigitsCore_no_underscore (n + 1) n c hc

theorem to_string_ne_nil (n : Nat) : to_string n ≠ [] := by
  intro h
  have h1 : Nat.toDigitsCore 10 (n + 1) n [] = [] := h
  simp only [Nat.toDigitsCore] at h1
  split_ifs at h1 with h2
  rw [toDigitsCore_append] at h1
  simp at h1

theorem lastComponent_append (a b : Str) (hb : ∀ c ∈ b, c ≠ '_') :
    lastComponent (a ++ '_' :: b) = b := by
  unfold lastComponent
  have h1 : (a ++ '_' :: b).reverse = b.reverse ++ ('_' :: a.reverse) := by simp
  rw [h1, List.takeWhile_append_of_pos, List.takeWhile_cons_of_neg]
  · simp
  · simp
  · intro c hc
    simpa using hb c (List.mem_reverse.mp hc)

/-! ## Single calls: frame facts -/

theorem setDirectory_handler (directory : Str) (s : Registry) :
    (setDirectory directory s).handler = s.handler := by
  unfold setDirectory
  split_ifs <;> rfl

theorem remove_counter (std_remove : Str → Int) (filename : Str) (s : Registry) :
    (remove std_remove filename s).state.handler.counter = s.handler.counter := by
  unfold remove
  split_ifs <;> rfl

theorem remove_temp_dir (std_remove : Str → Int) (filename : Str) (s : Registry) :
    (remove std_remove filename s).state.temp_dir = s.temp_dir := by
  unfold remove
  split_ifs <;> rfl

theorem getName_fst (hostname : Str) (pid : Nat) (name_part : Str) (s : Registry) :
    (getName hostname pid name_part s).1 =
      (s.temp_dir ++ '/' :: name_part ++ '_' :: c_string (hostname.set 31 NUL)
        ++ '_' :: to_string pid) ++ '_' :: to_string s.handler.counter := by
  simp [getName]

theorem lastComponent_getName (hostname : Str) (pid : Nat) (name_part : Str) (s : Registry) :
    lastComponent (getName hostname pid name_part s).1 = to_string s.handler.counter := by
  rw [getName_fst]
  exact lastComponent_append _ _ (to_string_no_underscore _)

theorem getName_fst_ne_nil (hostname : Str) (pid : Nat) (name_part : Str) (s : Registry) :
    (getName hostname pid name_part s).1 ≠ [] := by
  rw [getName_fst]
  simp

/-! ## Runs of the registry -/

theorem exec_snoc (ops : List Op) (op : Op) : exec (ops ++ [op]) = (exec ops).step op := by
  simp [exec, List.foldl_append]

theorem allocations_snoc (ops : List Op) (op : Op) :
    allocations (ops ++ [op]) =
      allocations ops + (match op with | .getName _ _ _ => 1 | _ => 0) := by
  cases op <;> simp [allocations, List.countP_append, List.countP_singleton]

theorem releases_snoc (ops : List Op) (op : Op) :
    releases (ops ++ [op]) =
      releases ops + (match op with | .remove _ _ => 1 | _ => 0) := by
  cases op <;> simp [releases, List.countP_append, List.countP_singleton]

/-- The sequence components of the returned names are `0, 1, 2, ...` reduced modulo `2 ^ 64`, and
the counter is the number of allocations modulo `2 ^ 64`. -/
theorem exec_sequence (ops : List Op) :
    (exec ops).returned.map lastComponent
        = (List.range (allocations ops)).map (fun i => to_string (i % SIZE_MOD)) ∧
      (exec ops).state.handler.counter = allocations ops % SIZE_MOD := by
  induction ops using List.reverseRecOn with
  | nil => exact ⟨rfl, rfl⟩
  | append_singleton ops op ih =>
    rw [exec_snoc, allocations_snoc]
    cases op with
    | setDirectory directory =>
      simpa [Exec.step, setDirectory_handler] using ih
    | getName hostname pid name_part =>
      have h2 := ih.2
      simp only [SIZE_MOD] at h2
      refine ⟨?_, ?_⟩
      · simp only [Exec.step, List.map_append, List.map_cons, List.map_nil, List.range_succ,
          lastComponent_getName, ih.1, ih.2]
      · simp only [Exec.step, vcfbwt.TempFile.getName, SIZE_MOD]
        omega
    | remove filename result =>
      simpa [Exec.step, remove_counter] using ih

theorem returned_length (ops : List Op) : (exec ops).returned.length = allocations ops := by
  have h := congrArg List.length (exec_sequence ops).1
  simpa using h

theorem returned_nodup (ops : List Op) (h : allocations ops ≤ SIZE_MOD) :
    (exec ops).returned.Nodup := by
  apply List.Nodup.of_map lastComponent
  rw [(exec_sequence ops).1]
  refine List.Nodup.map_on ?_ (List.nodup_range _)
  intro i hi j hj hij
  have hi' : i < SIZE_MOD := lt_of_lt_of_le (List.mem_range.mp hi) h
  have hj' : j < SIZE_MOD := lt_of_lt_of_le (List.mem_range.mp hj) h
  have := to_string_injective hij
  rwa [Nat.mod_eq_of_lt hi', Nat.mod_eq_of_lt hj'] at this

/-! ## Claim C1: uniqueness of the returned names -/

/-- Claim C1 (uniqueness).  From program start, run any sequence of calls in which `getName`
(with any name hints, host names and process ids) is interleaved with `setDirectory` and `remove`
calls.  As long as the counter has not wrapped around (at most `2 ^ 64` allocations), there is one
returned string per `getName` call and the returned strings are pairwise distinct. -/
theorem C1_getName_unique (ops : List Op) (h : allocations ops ≤ SIZE_MOD) :
    (exec ops).returned.length = allocations ops ∧
      (exec ops).returned.Pairwise (fun p q => p ≠ q) :=
  ⟨returned_length ops, returned_nodup ops h⟩

/-- Claim C1 at the sample run: three allocations, three distinct names. -/
theorem C1_getName_unique_witness :
    allocations sampleOps ≤ SIZE_MOD ∧
      (exec sampleOps).returned.length = allocations sampleOps ∧
      (exec sampleOps).returned.Pairwise (fun p q => p ≠ q) :=
  ⟨by decide, C1_getName_unique sampleOps (by decide)⟩

/-! ## The tracked set along a run -/

theorem outstanding_snoc (ops : List Op) (op : Op) (p : Str) :
    Outstanding (ops ++ [op]) p ↔
      (Outstanding ops p ∧ ∀ result, op ≠ Op.remove p result) ∨
      (∃ hostname pid name_part, op = Op.getName hostname pid name_part ∧
        (vcfbwt.TempFile.getName hostname pid name_part (exec ops).state).1 = p) := by
  constructor
  · rintro ⟨before, after, hostname, pid, name_part, heq, hp, hno⟩
    rcases List.eq_nil_or_concat' after with rfl | ⟨after0, x, rfl⟩
    · obtain ⟨h1, h2⟩ := List.append_inj' heq rfl
      right
      refine ⟨hostname, pid, name_part, by simpa using h2, ?_⟩
      rw [h1]; exact hp
    · have heq2 : ops ++ [op] = (before ++ Op.getName hostname pid name_part :: after0) ++ [x] := by
        simpa using heq
      obtain ⟨h1, h2⟩ := List.append_inj' heq2 rfl
      left
      refine ⟨⟨before, after0, hostname, pid, name_part, h1, hp, ?_⟩, ?_⟩
      · intro result hmem
        exact hno result (List.mem_append_left _ hmem)
      · intro result hop
        apply hno result
        have hx : x = op := by simpa using h2.symm
        rw [hx, hop]
        simp
  · rintro (⟨⟨before, after, hostname, pid, name_part, heq, hp, hno⟩, hop⟩ | ⟨hostname, pid, name_part, hop, hp⟩)
    · refine ⟨before, after ++ [op], hostname, pid, name_part, by simp [heq], hp, ?_⟩
      intro result hmem
      rcases List.mem_append.mp hmem with hmem | hmem
      · exact hno result hmem
      · exact hop result (List.mem_singleton.mp hmem).symm
    · exact ⟨ops, [], hostname, pid, name_part, by simp [hop], hp, by simp⟩

theorem outstanding_ne_nil (ops : List Op) (p : Str) (h : Outstanding ops p) : p ≠ [] := by
  obtain ⟨before, after, hostname, pid, name_part, _, hp, _⟩ := h
  rw [← hp]
  exact getName_fst_ne_nil _ _ _ _

/-- The tracked set holds exactly the names allocated and not released afterwards. -/
theorem filenames_iff_outstanding (ops : List Op) (p : Str) :
    p ∈ (exec ops).state.handler.filenames.elems ↔ Outstanding ops p := by
  induction ops using List.reverseRecOn generalizing p with
  | nil =>
    constructor
    · intro h; simp [exec, Exec.init, vcfbwt.TempFile.init, Handler.init, StringSet.empty] at h
    · rintro ⟨before, after, hostname, pid, name_part, heq, _, _⟩
      simp at heq
  | append_singleton ops op ih =>
    rw [exec_snoc, outstanding_snoc]
    cases op with
    | setDirectory directory =>
      simp [Exec.step, setDirectory_handler, ih]
    | getName hostname pid name_part =>
      simp only [Exec.step, vcfbwt.TempFile.getName, StringSet.insert, StringSet.mem_insertList, ih]
      constructor
      · rintro (h | h)
        · exact Or.inr ⟨hostname, pid, name_part, rfl, by rw [h]⟩
        · exact Or.inl ⟨h, by simp⟩
      · rintro (⟨h, _⟩ | ⟨hostname0, pid0, name_part0, hop, hp⟩)
        · exact Or.inr h
        · left
          cases hop
          rw [← hp]
    | remove filename result =>
      by_cases hf : filename = []
      · subst hf
        simp only [Exec.step, vcfbwt.TempFile.remove, List.isEmpty_nil, Bool.not_true,
          Bool.false_eq_true, if_false, ih]
        constructor
        · intro h
          refine Or.inl ⟨h, ?_⟩
          intro result0 hop
          cases hop
          exact outstanding_ne_nil ops [] h rfl
        · rintro (⟨h, _⟩ | ⟨_, _, _, hop, _⟩)
          · exact h
          · cases hop
      · have hemp : filename.isEmpty = false := by
          cases filename with
          | nil => exact absurd rfl hf
          | cons _ _ => rfl
        simp only [Exec.step, vcfbwt.TempFile.remove, hemp, Bool.not_false, if_true,
          StringSet.erase, StringSet.mem_eraseList _ _ _ (exec ops).state.handler.filenames.sorted, ih]
        constructor
        · rintro ⟨hne, h⟩
          refine Or.inl ⟨h, ?_⟩
          intro result0 hop
          cases hop
          exact hne rfl
        · rintro (⟨h, hop⟩ | ⟨_, _, _, hop, _⟩)
          · refine ⟨?_, h⟩
            rintro rfl
            exact hop result rfl
          · cases hop

theorem liveStep_fold_fst (ops : List Op) :
    (ops.foldl liveStep (Exec.init, true)).1 = exec ops := by
  induction ops using List.reverseRecOn with
  | nil => rfl
  | append_singleton ops op ih =>
    rw [List.foldl_append, exec_snoc]
    simp [liveStep, ih]

theorem releasesLive_snoc (ops : List Op) (op : Op) :
    releasesLive (ops ++ [op]) =
      (releasesLive ops && (match op with
        | .remove filename _ => decide (filename ∈ (exec ops).state.handler.filenames.elems)
        | _ => true)) := by
  unfold releasesLive
  rw [List.foldl_append]
  simp only [List.foldl_cons, List.foldl_nil, liveStep, liveStep_fold_fst]

theorem StringSet.length_insertList_of_not_mem (x : Str) (l : List Str) (h : x ∉ l) :
    (StringSet.insertList x l).length = l.length + 1 := by
  induction l with
  | nil => simp [StringSet.insertList]
  | cons y ys ih =>
    unfold StringSet.insertList
    have hne : x ≠ y := fun e => h (e ▸ List.mem_cons_self _ _)
    have hys : x ∉ ys := fun e => h (List.mem_cons_of_mem _ e)
    split_ifs with h1 h2
    · simp
    · simp [ih hys]
    · exact absurd (le_antisymm (not_lt.mp h2) (not_lt.mp h1)) hne

theorem StringSet.length_eraseList_of_mem (x : Str) (l : List Str) (hs : l.Pairwise (· < ·))
    (h : x ∈ l) : (StringSet.eraseList x l).length + 1 = l.length := by
  induction l with
  | nil => simp at h
  | cons y ys ih =>
    unfold StringSet.eraseList
    rw [List.pairwise_cons] at hs
    split_ifs with h1 h2
    · exfalso
      rcases List.mem_cons.mp h with rfl | h
      · exact lt_irrefl _ h1
      · exact lt_asymm h1 (hs.1 _ h)
    · rcases List.mem_cons.mp h with rfl | h
      · exact absurd h2 (lt_irrefl _)
      · simp [ih hs.2 h]
    · simp

theorem filenames_subset_returned (ops : List Op) (p : Str)
    (h : p ∈ (exec ops).state.handler.filenames.elems) : p ∈ (exec ops).returned := by
  obtain ⟨before, after, hostname, pid, name_part, heq, hp, _⟩ :=
    (filenames_iff_outstanding ops p).mp h
  have hret : ∀ (l : List Op) (e : Exec), e.returned <+: (l.foldl Exec.step e).returned := by
    intro l
    induction l with
    | nil => intro e; exact List.prefix_refl _
    | cons op l ih =>
      intro e
      refine List.IsPrefix.trans ?_ (ih (e.step op))
      cases op with
      | setDirectory directory => exact List.prefix_refl _
      | getName hostname pid name_part => exact List.prefix_append _ _
      | remove filename result => exact List.prefix_refl _
  have h1 : exec ops = after.foldl Exec.step ((exec before).step (Op.getName hostname pid name_part)) := by
    rw [heq]; simp [exec, List.foldl_append]
  rw [h1]
  apply (hret after _).subset
  simp [Exec.step, hp]

/-- When the returned names are pairwise distinct and every release is passed a live name, each
allocation adds one name to the tracked set and each release takes one away. -/
theorem live_count (ops : List Op) (hdistinct : (exec ops).returned.Nodup)
    (hlive : releasesLive ops = true) :
    (exec ops).state.handler.filenames.elems.length + releases ops = allocations ops := by
  induction ops using List.reverseRecOn with
  | nil => rfl
  | append_singleton ops op ih =>
    rw [releasesLive_snoc, Bool.and_eq_true] at hlive
    rw [exec_snoc] at hdistinct ⊢
    rw [allocations_snoc, releases_snoc]
    cases op with
    | setDirectory directory =>
      simpa [Exec.step, setDirectory_handler] using ih hdistinct hlive.1
    | getName hostname pid name_part =>
      simp only [Exec.step] at hdistinct
      have ih := ih (List.nodup_append.mp hdistinct).1 hlive.1
      have hnew : (vcfbwt.TempFile.getName hostname pid name_part (exec ops).state).1
          ∉ (exec ops).state.handler.filenames.elems := by
        intro hmem
        have := filenames_subset_returned ops _ hmem
        exact (List.nodup_append.mp hdistinct).2.2 this (List.mem_singleton_self _)
      have hlen := StringSet.length_insertList_of_not_mem _ _ hnew
      simp only [Exec.step, vcfbwt.TempFile.getName, StringSet.insert] at hlen ⊢
      omega
    | remove filename result =>
      have ih := ih hdistinct hlive.1
      have hmem : filename ∈ (exec ops).state.handler.filenames.elems := by
        simpa using hlive.2
      have hne : filename.isEmpty = false := by
        cases filename with
        | nil => exact absurd rfl (outstanding_ne_nil ops [] ((filenames_iff_outstanding ops []).mp hmem))
        | cons _ _ => rfl
      have hlen := StringSet.length_eraseList_of_mem _ _ (exec ops).state.handler.filenames.sorted hmem
      simp only [Exec.step, vcfbwt.TempFile.remove, hne, Bool.not_false, if_true, StringSet.erase]
      omega

theorem StringSet.nodup_elems (s : StringSet) : s.elems.Nodup :=
  s.sorted.imp (fun h => ne_of_lt h)

/-! ## Claim C2: teardown completeness -/

/-- Claim C2 (teardown completeness).  After any sequence of calls from program start, the
destructor `~Handler` leaves `filenames` empty and calls `std::remove` once for each string that
was allocated and not released afterwards, and for no other string.  When the `M` allocated names
are pairwise distinct and each of the `K` releases is passed a name that is tracked at that time,
the destructor makes exactly `M - K` deletion attempts. -/
theorem C2_teardown_complete (ops : List Op) (std_remove : Str → Int) :
    (Handler.destructor std_remove (exec ops).state.handler).1.filenames.elems = [] ∧
    ((Handler.destructor std_remove (exec ops).state.handler).2.map RemoveCall.path).Nodup ∧
    (∀ p, p ∈ (Handler.destructor std_remove (exec ops).state.handler).2.map RemoveCall.path
        ↔ Outstanding ops p) ∧
    ((exec ops).returned.Nodup → releasesLive ops = true →
      (Handler.destructor std_remove (exec ops).state.handler).2.length
        = allocations ops - releases ops) := by
  have hpaths : (Handler.destructor std_remove (exec ops).state.handler).2.map RemoveCall.path
      = (exec ops).state.handler.filenames.elems := by
    simp [Handler.destructor, Function.comp_def]
  refine ⟨rfl, ?_, ?_, ?_⟩
  · rw [hpaths]
    exact StringSet.nodup_elems _
  · intro p
    rw [hpaths]
    exact filenames_iff_outstanding ops p
  · intro hdistinct hlive
    have h := live_count ops hdistinct hlive
    have hlen : (Handler.destructor std_remove (exec ops).state.handler).2.length
        = (exec ops).state.handler.filenames.elems.length := by
      simp [Handler.destructor]
    omega

/-- Claim C2 at the sample run: three names allocated, one released, and the destructor deletes
the two others. -/
theorem C2_teardown_complete_witness :
    (exec sampleOps).returned.Nodup ∧ releasesLive sampleOps = true ∧
      (Handler.destructor (fun _ => 0) (exec sampleOps).state.handler).2.length
        = allocations sampleOps - releases sampleOps ∧
      (Handler.destructor (fun _ => 0) (exec sampleOps).state.handler).2.map RemoveCall.path
        = ["./tmp_node7_4242_1".toList, "/scratch/tmp_node8_17_2".toList] :=
  ⟨by decide, by decide,
    (C2_teardown_complete sampleOps (fun _ => 0)).2.2.2 (by decide) (by decide), by decide⟩

/-! ## Claim C3: release of an empty name -/

/-- Claim C3 (release idempotence).  The call `remove` on an empty string changes nothing: the
registry (directory, counter, `filenames`) and the string are as before and no `std::remove` call
is made.  After any call `remove(filename)` the string is empty, so a second call on the same
reference changes neither the registry nor the string and makes no deletion attempt: two calls in a
row have the effect of one. -/
theorem C3_remove_idempotent (std_remove std_remove2 : Str → Int) (filename : Str)
    (s : Registry) :
    ((remove std_remove [] s).state = s ∧ (remove std_remove [] s).filename = [] ∧
      (remove std_remove [] s).calls = []) ∧
    ((remove std_remove2 (remove std_remove filename s).filename
          (remove std_remove filename s).state).state = (remove std_remove filename s).state ∧
      (remove std_remove2 (remove std_remove filename s).filename
          (remove std_remove filename s).state).filename = (remove std_remove filename s).filename ∧
      (remove std_remove filename s).calls ++
          (remove std_remove2 (remove std_remove filename s).filename
            (remove std_remove filename s).state).calls = (remove std_remove filename s).calls) := by
  have hempty : (remove std_remove filename s).filename = [] := by
    unfold remove
    split_ifs with h
    · rfl
    · cases filename with
      | nil => rfl
      | cons c cs => simp at h
  refine ⟨⟨rfl, rfl, rfl⟩, ?_⟩
  rw [hempty]
  exact ⟨rfl, rfl, List.append_nil _⟩

/-! ## Claim C4: release of a non-empty name -/

/-- Claim C4 (release postcondition).  For a non-empty string, `remove` makes exactly one
`std::remove` call, on that string, and the registry after the call does not depend on what
`std::remove` returns; afterwards the string is not in `filenames`, the other members of
`filenames` are the same as before, and the caller's string is empty. -/
theorem C4_remove_postcondition (std_remove : Str → Int) (filename : Str) (s : Registry)
    (hne : filename ≠ []) :
    (remove std_remove filename s).calls.map RemoveCall.path = [filename] ∧
    (∀ std_remove2 : Str → Int,
      (remove std_remove2 filename s).state = (remove std_remove filename s).state) ∧
    filename ∉ (remove std_remove filename s).state.handler.filenames.elems ∧
    (∀ g, g ≠ filename →
      (g ∈ (remove std_remove filename s).state.handler.filenames.elems
        ↔ g ∈ s.handler.filenames.elems)) ∧
    (remove std_remove filename s).filename = [] := by
  have hemp : filename.isEmpty = false := by
    cases filename with
    | nil => exact absurd rfl hne
    | cons _ _ => rfl
  have hmem : ∀ g, g ∈ (remove std_remove filename s).state.handler.filenames.elems
      ↔ g ≠ filename ∧ g ∈ s.handler.filenames.elems := by
    intro g
    simp only [remove, hemp, Bool.not_false, if_true, StringSet.erase]
    exact StringSet.mem_eraseList filename g _ s.handler.filenames.sorted
  refine ⟨?_, ?_, ?_, ?_, ?_⟩
  · simp [remove, hemp]
  · intro std_remove2
    simp [remove, hemp]
  · intro h
    exact ((hmem filename).mp h).1 rfl
  · intro g hg
    rw [hmem g]
    exact ⟨fun h => h.2, fun h => ⟨hg, h⟩⟩
  · simp [remove, hemp]

/-- Claim C4 at the sample state: releasing the first of the two tracked names deletes that file
once and leaves the second name tracked. -/
theorem C4_remove_postcondition_witness :
    "./tmp_node7_4242_0".toList ≠ [] ∧
    (remove (fun _ => -1) "./tmp_node7_4242_0".toList sampleState).calls.map RemoveCall.path
      = ["./tmp_node7_4242_0".toList] ∧
    (remove (fun _ => -1) "./tmp_node7_4242_0".toList sampleState).state.handler.filenames.elems
      = ["./tmp_node7_4242_1".toList] ∧
    (remove (fun _ => -1) "./tmp_node7_4242_0".toList sampleState).filename = [] :=
  ⟨by decide,
    (C4_remove_postcondition (fun _ => -1) "./tmp_node7_4242_0".toList sampleState (by decide)).1,
    by decide,
    (C4_remove_postcondition (fun _ => -1) "./tmp_node7_4242_0".toList sampleState
      (by decide)).2.2.2.2⟩

/-! ## Claim C5: the format of a returned name and the side effects of `getName` -/

theorem allocations_append (a b : List Op) :
    allocations (a ++ b) = allocations a + allocations b := by
  unfold allocations
  exact List.countP_append _ _ _

theorem allocations_replicate (n : Nat) : allocations (List.replicate n plainGetName) = n := by
  simp [allocations, plainGetName, List.countP_replicate]

theorem allocations_wrapOps : allocations wrapOps = 2 ^ 64 - 1 := allocations_replicate _

theorem counter_wrapOps : (exec wrapOps).state.handler.counter = 2 ^ 64 - 1 := by
  have h := (exec_sequence wrapOps).2
  rw [h, allocations_wrapOps, SIZE_MOD]
  norm_num

theorem getName_counter (hostname : Str) (pid : Nat) (name_part : Str) (s : Registry) :
    (getName hostname pid name_part s).2.handler.counter = (s.handler.counter + 1) % SIZE_MOD :=
  rfl

/-- Claim C5 fails as stated: after `2 ^ 64 - 1` allocations the counter is `c = 2 ^ 64 - 1`, and
the next `getName` sets it to `0`, not to `c + 1`. -/
theorem C5_counter_wraps :
    (exec wrapOps).state.handler.counter = 2 ^ 64 - 1 ∧
    (getName (hostBuffer []) 0 [] (exec wrapOps).state).2.handler.counter = 0 ∧
    (getName (hostBuffer []) 0 [] (exec wrapOps).state).2.handler.counter
      ≠ (exec wrapOps).state.handler.counter + 1 := by
  have h : (getName (hostBuffer []) 0 [] (exec wrapOps).state).2.handler.counter = 0 := by
    rw [getName_counter, counter_wrapOps, SIZE_MOD]
    norm_num
  refine ⟨counter_wrapOps, h, ?_⟩
  rw [h, counter_wrapOps]
  norm_num

/-- Claim C5, amended (path format and side effect).  In a state with directory `d` and counter
`c`, `getName` with hint `h` returns `d ++ "/" ++ h ++ "_" ++ hostname ++ "_" ++ decimal(pid) ++
"_" ++ decimal(c)`, where `hostname` is the C string in the host-name buffer; it inserts that
string into `filenames` (whose other members stay), sets the counter to `(c + 1) mod 2 ^ 64`,
which is `c + 1` unless `c` is the largest `std::size_t`, and leaves the directory unchanged. -/
theorem C5_getName_format (hostname : Str) (pid : Nat) (name_part : Str) (s : Registry) :
    (getName hostname pid name_part s).1
      = s.temp_dir ++ "/".toList ++ name_part ++ "_".toList
          ++ c_string (hostname.set 31 NUL) ++ "_".toList
          ++ to_string pid ++ "_".toList ++ to_string s.handler.counter ∧
    (∀ q, q ∈ (getName hostname pid name_part s).2.handler.filenames.elems
        ↔ q = (getName hostname pid name_part s).1 ∨ q ∈ s.handler.filenames.elems) ∧
    (getName hostname pid name_part s).2.handler.counter = (s.handler.counter + 1) % 2 ^ 64 ∧
    (s.handler.counter + 1 < 2 ^ 64 →
      (getName hostname pid name_part s).2.handler.counter = s.handler.counter + 1) ∧
    (getName hostname pid name_part s).2.temp_dir = s.temp_dir := by
  refine ⟨rfl, ?_, rfl, ?_, rfl⟩
  · intro q
    exact StringSet.mem_insertList _ q _
  · intro h
    exact Nat.mod_eq_of_lt h

/-! ## Claim C6: the counter along a run -/

theorem head_map_range_succ (f : Nat → Str) (n : Nat) :
    ((List.range (n + 1)).map f).head? = some (f 0) := by
  rw [List.range_succ_eq_map]
  rfl

theorem getLast_map_range_succ (f : Nat → Str) (n : Nat) :
    ((List.range (n + 1)).map f).getLast? = some (f n) := by
  rw [List.range_succ, List.map_append, List.map_singleton, List.getLast?_append]
  rfl

theorem allocations_wrapOps_two :
    allocations (wrapOps ++ [plainGetName, plainGetName]) = 2 ^ 64 + 1 := by
  rw [allocations_append, allocations_wrapOps]
  have h2 : allocations [plainGetName, plainGetName] = 2 := rfl
  rw [h2]
  norm_num

/-- Claim C6 fails as stated: in the run of `2 ^ 64 + 1` allocations the sequence component of the
last name is `0` again, as for the first name, and not `2 ^ 64`. -/
theorem C6_sequence_repeats :
    ((exec (wrapOps ++ [plainGetName, plainGetName])).returned.map lastComponent).head?
      = some (to_string 0) ∧
    ((exec (wrapOps ++ [plainGetName, plainGetName])).returned.map lastComponent).getLast?
      = some (to_string 0) ∧
    (exec (wrapOps ++ [plainGetName, plainGetName])).returned.length = 2 ^ 64 + 1 ∧
    to_string 0 ≠ to_string (2 ^ 64) := by
  have hseq := (exec_sequence (wrapOps ++ [plainGetName, plainGetName])).1
  have hlen := returned_length (wrapOps ++ [plainGetName, plainGetName])
  rw [allocations_wrapOps_two] at hseq hlen
  rw [hseq]
  refine ⟨?_, ?_, hlen, ?_⟩
  · rw [head_map_range_succ]
    rfl
  · rw [getLast_map_range_succ]
    have h0 : 2 ^ 64 % SIZE_MOD = 0 := by rw [SIZE_MOD]; norm_num
    rw [h0]
  · intro h
    have := to_string_injective h
    norm_num at this

/-- Claim C6, amended (counter monotonicity).  The counter starts at `0`, every `getName`
increments it by one modulo `2 ^ 64`, and `setDirectory` and `remove` leave it alone; so after any
run it is the number of allocations modulo `2 ^ 64`, and the sequence component of the `k`-th
returned name is the decimal form of `(k - 1) mod 2 ^ 64`.  As long as there have been at most
`2 ^ 64` allocations the sequence components are `0, 1, 2, ...` in call order: the `k`-th is
`k - 1`, they increase strictly and none is repeated. -/
theorem C6_counter_monotone (ops : List Op) :
    Exec.init.state.handler.counter = 0 ∧
    (∀ hostname pid name_part s,
      (getName hostname pid name_part s).2.handler.counter = (s.handler.counter + 1) % 2 ^ 64) ∧
    (∀ directory s, (setDirectory directory s).handler.counter = s.handler.counter) ∧
    (∀ std_remove filename s,
      (remove std_remove filename s).state.handler.counter = s.handler.counter) ∧
    (exec ops).state.handler.counter = allocations ops % 2 ^ 64 ∧
    (exec ops).returned.map lastComponent
      = (List.range (allocations ops)).map (fun k => to_string (k % 2 ^ 64)) ∧
    (allocations ops ≤ 2 ^ 64 →
      (exec ops).returned.map (fun p => decimalValue (lastComponent p))
          = List.range (allocations ops) ∧
        ((exec ops).returned.map (fun p => decimalValue (lastComponent p))).Pairwise
          (fun a b => a < b)) := by
  refine ⟨rfl, fun _ _ _ _ => rfl, ?_, remove_counter, (exec_sequence ops).2,
    (exec_sequence ops).1, ?_⟩
  · intro directory s
    rw [setDirectory_handler]
  · intro h
    have hval : (exec ops).returned.map (fun p => decimalValue (lastComponent p))
        = List.range (allocations ops) := by
      have h1 : (exec ops).returned.map (fun p => decimalValue (lastComponent p))
          = ((exec ops).returned.map lastComponent).map decimalValue := by
        rw [List.map_map]; rfl
      rw [h1, (exec_sequence ops).1, List.map_map]
      have h2 : ∀ k ∈ List.range (allocations ops),
          (decimalValue ∘ fun i => to_string (i % SIZE_MOD)) k = id k := by
        intro k hk
        have hk' : k < SIZE_MOD := lt_of_lt_of_le (List.mem_range.mp hk) h
        simp [decimalValue_to_string, Nat.mod_eq_of_lt hk']
      rw [List.map_congr_left h2, List.map_id]
    refine ⟨hval, ?_⟩
    rw [hval]
    exact List.pairwise_lt_range _

/-- Claim C6 at the sample run: the three returned names carry the sequence numbers 0, 1, 2. -/
theorem C6_counter_monotone_witness :
    allocations sampleOps ≤ 2 ^ 64 ∧
    (exec sampleOps).returned.map (fun p => decimalValue (lastComponent p))
      = List.range (allocations sampleOps) :=
  ⟨by decide, ((C6_counter_monotone sampleOps).2.2.2.2.2.2 (by decide)).1⟩

/-! ## Claim C7: directory normalisation -/

theorem setDirectory_of_no_separator (p : Str) (s : Registry) (hne : p ≠ [])
    (hlast : p.getLast? ≠ some '/') : setDirectory p s = { s with temp_dir := p } := by
  have hemp : p.isEmpty = false := by
    cases p with
    | nil => exact absurd rfl hne
    | cons _ _ => rfl
  rw [List.getLast?_eq_getElem?] at hlast
  simp [setDirectory, hemp, hlast]

theorem setDirectory_of_separator (p : Str) (s : Registry) :
    setDirectory (p ++ ['/']) s = { s with temp_dir := p } := by
  have hemp : (p ++ ['/']).isEmpty = false := by
    cases p <;> rfl
  simp [setDirectory, hemp]

theorem getName_has_directory (hostname : Str) (pid : Nat) (name_part : Str) (s : Registry) :
    s.temp_dir ++ ['/'] <+: (getName hostname pid name_part s).1 := by
  refine ⟨name_part ++ '_' :: c_string (hostname.set 31 NUL) ++ '_' :: to_string pid
    ++ '_' :: to_string s.handler.counter, ?_⟩
  simp [getName]

/-- Claim C7 (directory normalisation).  For a non-empty directory string `p` that does not end
in `/`, `setDirectory(p ++ "/")` and `setDirectory(p)` leave the registry in the same state, with
directory `p`, so a following `getName` returns the same name in both cases and that name starts
with `p ++ "/"`.  In particular `"/tmp/"` and `"/tmp"` both give names that start with `"/tmp/"`.
The call `setDirectory("")` sets the directory to the default `"."`. -/
theorem C7_setDirectory_normalises (p : Str) (s : Registry) (hne : p ≠ [])
    (hlast : p.getLast? ≠ some '/') :
    setDirectory (p ++ "/".toList) s = setDirectory p s ∧
    (setDirectory p s).temp_dir = p ∧
    (∀ hostname pid name_part,
      getName hostname pid name_part (setDirectory (p ++ "/".toList) s)
        = getName hostname pid name_part (setDirectory p s) ∧
      p ++ "/".toList <+: (getName hostname pid name_part (setDirectory p s)).1) ∧
    (∀ hostname pid name_part,
      "/tmp/".toList <+: (getName hostname pid name_part (setDirectory "/tmp/".toList s)).1 ∧
      "/tmp/".toList <+: (getName hostname pid name_part (setDirectory "/tmp".toList s)).1) ∧
    (setDirectory "".toList s).temp_dir = ".".toList ∧
    (setDirectory "".toList s).temp_dir = DEFAULT_TEMP_DIR := by
  have h1 : setDirectory (p ++ "/".toList) s = { s with temp_dir := p } :=
    setDirectory_of_separator p s
  have h2 := setDirectory_of_no_separator p s hne hlast
  refine ⟨by rw [h1, h2], by rw [h2], ?_, ?_, rfl, rfl⟩
  · intro hostname pid name_part
    refine ⟨by rw [h1, h2], ?_⟩
    have h := getName_has_directory hostname pid name_part (setDirectory p s)
    rw [h2] at h ⊢
    exact h
  · intro hostname pid name_part
    exact ⟨getName_has_directory hostname pid name_part (setDirectory "/tmp/".toList s),
      getName_has_directory hostname pid name_part (setDirectory "/tmp".toList s)⟩

/-- Claim C7 at the directory `"/scratch"` and the sample state. -/
theorem C7_setDirectory_normalises_witness :
    "/scratch".toList ≠ [] ∧ "/scratch".toList.getLast? ≠ some '/' ∧
    setDirectory ("/scratch".toList ++ "/".toList) sampleState
      = setDirectory "/scratch".toList sampleState ∧
    (setDirectory "/scratch".toList sampleState).temp_dir = "/scratch".toList :=
  ⟨by decide, by decide,
    (C7_setDirectory_normalises "/scratch".toList sampleState (by decide) (by decide)).1,
    (C7_setDirectory_normalises "/scratch".toList sampleState (by decide) (by decide)).2.1⟩

/-! ## Claim C8: does the directory end in a separator? -/

/-- After `setDirectory(d)` the directory ends in `/` exactly when `d` ends in `//`. -/
theorem setDirectory_ends_in_separator_iff (d : Str) (s : Registry) :
    (setDirectory d s).temp_dir.getLast? = some '/' ↔ "//".toList <:+ d := by
  have hrev : ∀ l : Str, "//".toList <:+ l ↔ ['/', '/'] <+: l.reverse := by
    intro l
    rw [← List.reverse_prefix]
    rfl
  rcases List.eq_nil_or_concat' d with rfl | ⟨d0, c, rfl⟩
  · constructor
    · intro h
      have h0 : (setDirectory [] s).temp_dir = ['.'] := rfl
      rw [h0] at h
      exact absurd h (by decide)
    · intro h
      exact absurd (List.suffix_nil.mp h) (by decide)
  · by_cases hc : c = '/'
    · subst hc
      rw [setDirectory_of_separator, hrev]
      simp only [List.reverse_append, List.reverse_cons, List.reverse_nil, List.nil_append,
        List.singleton_append, List.cons_prefix_cons, true_and]
      rw [← List.head?_reverse]
      cases d0.reverse with
      | nil => simp
      | cons a l => simp [List.cons_prefix_cons, eq_comm]
    · have hlast : (d0 ++ [c]).getLast? ≠ some '/' := by simpa using hc
      rw [setDirectory_of_no_separator _ s (by simp) hlast, hrev]
      simp only [List.reverse_append, List.reverse_cons, List.reverse_nil, List.nil_append,
        List.singleton_append, List.cons_prefix_cons]
      constructor
      · intro h
        exact absurd h hlast
      · rintro ⟨h, _⟩
        exact absurd h.symm hc

/-- Claim C8 fails as stated: after the single call `setDirectory("/tmp//")` from program start the
directory is `"/tmp/"`, which ends in the separator. -/
theorem C8_directory_may_end_in_separator :
    (exec [Op.setDirectory "/tmp//".toList]).state.temp_dir = "/tmp/".toList ∧
    (exec [Op.setDirectory "/tmp//".toList]).state.temp_dir.getLast? = some '/' := by
  decide

/-- Claim C8, amended (directory invariant).  At program start and after any sequence of calls in
which no `setDirectory` argument ends in two separators `//`, the directory does not end in the
separator `/`; and one more call `setDirectory(d)` leaves a directory that ends in `/` exactly when
`d` ends in `//`. -/
theorem C8_directory_invariant (ops : List Op)
    (h : ∀ d, Op.setDirectory d ∈ ops → ¬ "//".toList <:+ d) :
    (exec ops).state.temp_dir.getLast? ≠ some '/' ∧
    (∀ d, (exec (ops ++ [Op.setDirectory d])).state.temp_dir.getLast? = some '/'
      ↔ "//".toList <:+ d) := by
  refine ⟨?_, fun d => by
    rw [exec_snoc]; exact setDirectory_ends_in_separator_iff d (exec ops).state⟩
  induction ops using List.reverseRecOn with
  | nil => decide
  | append_singleton ops op ih =>
    have ih := ih (fun d hd => h d (List.mem_append_left _ hd))
    rw [exec_snoc]
    cases op with
    | setDirectory directory =>
      intro hend
      exact h directory (by simp)
        ((setDirectory_ends_in_separator_iff directory (exec ops).state).mp hend)
    | getName hostname pid name_part => exact ih
    | remove filename result =>
      simp only [Exec.step, remove_temp_dir]
      exact ih

/-- Claim C8 at the sample run, whose one `setDirectory` argument is `"/scratch/"`. -/
theorem C8_directory_invariant_witness :
    (∀ d, Op.setDirectory d ∈ sampleOps → ¬ "//".toList <:+ d) ∧
    (exec sampleOps).state.temp_dir.getLast? ≠ some '/' :=
  ⟨by intro d hd; simp [sampleOps] at hd; subst hd; decide,
    (C8_directory_invariant sampleOps
      (by intro d hd; simp [sampleOps] at hd; subst hd; decide)).1⟩

/-! ## Claim C9: the running total of the write counter -/

theorem updates_snoc (xs : List Nat) (x : Nat) :
    updates (xs ++ [x]) = vcfbwt.DiskWrites.update x (updates xs) := by
  simp [updates, List.foldl_append]

theorem updates_total (xs : List Nat) : (updates xs).bytes_wrote = xs.sum % SIZE_MOD := by
  induction xs using List.reverseRecOn with
  | nil => rfl
  | append_singleton xs x ih =>
    rw [updates_snoc]
    simp only [vcfbwt.DiskWrites.update, ih, List.sum_append, List.sum_singleton]
    exact Nat.mod_add_mod _ _ _

theorem updates_eq (xs : List Nat) : updates xs = ⟨xs.sum % SIZE_MOD⟩ := by
  have h := updates_total xs
  cases hw : updates xs with
  | mk b => rw [hw] at h; simp only at h; rw [h]

/-- Claim C9 (write total correctness).  The total starts at `0`; after any finite sequence of
`update` calls it is the sum of the arguments modulo `2 ^ 64`; two sequences with the same
arguments in a different order reach the same counter; `update(0)` leaves the counter unchanged;
and for the calls `update(10)`, `update(0)`, `update(250)` in any order the total is `260` and the
destructor prints the line `[Disk Write (bytes): 260]`. -/
theorem C9_write_total :
    (updates []).bytes_wrote = 0 ∧
    (∀ xs : List Nat, (updates xs).bytes_wrote = xs.sum % 2 ^ 64) ∧
    (∀ xs ys : List Nat, xs.Perm ys → updates xs = updates ys) ∧
    (∀ xs : List Nat, vcfbwt.DiskWrites.update 0 (updates xs) = updates xs) ∧
    (∀ w : WritesCounter, w.bytes_wrote < 2 ^ 64 → vcfbwt.DiskWrites.update 0 w = w) ∧
    (∀ xs : List Nat, xs.Perm [10, 0, 250] →
      (updates xs).bytes_wrote = 260 ∧
      (updates xs).destructor = "[Disk Write (bytes): 260]".toList ++ "\n".toList) := by
  refine ⟨rfl, updates_total, ?_, ?_, ?_, ?_⟩
  · intro xs ys h
    rw [updates_eq xs, updates_eq ys, h.sum_eq]
  · intro xs
    rw [updates_eq xs]
    simp only [vcfbwt.DiskWrites.update, Nat.add_zero, Nat.mod_mod]
  · intro w h
    cases w with
    | mk b =>
      simp only [vcfbwt.DiskWrites.update, Nat.add_zero]
      rw [SIZE_MOD, Nat.mod_eq_of_lt h]
  · intro xs h
    have hsum : xs.sum = 260 := by rw [h.sum_eq]; rfl
    have hw : updates xs = ⟨260⟩ := by
      rw [updates_eq xs, hsum]; rfl
    rw [hw]
    exact ⟨rfl, by decide⟩

/-- Claim C9 at the order `update(250)`, `update(10)`, `update(0)`. -/
theorem C9_write_total_witness :
    [250, 10, 0].Perm [10, 0, 250] ∧
    (updates [250, 10, 0]).bytes_wrote = 260 ∧
    (updates [250, 10, 0]).destructor = "[Disk Write (bytes): 260]".toList ++ "\n".toList :=
  ⟨by decide, C9_write_total.2.2.2.2.2 [250, 10, 0] (by decide)⟩

/-! ## Claim C10: the gzip check on a stream of at least two bytes -/

/-- Claim C10 fails as stated, in two ways.  First, `drainedStream` holds three bytes that start
with the gzip magic number and is what four `get` calls leave of a fresh stream on that file, yet
`is_gzipped` on it compares the uninitialised locals (here `a` and `b`) and returns false, and the
stream is left failed at position `3`: not rewound and not readable.  Second, `pipeStream` delivers
the same bytes and has no state bit set, but cannot be repositioned: the first `seekg(0)` fails and
sets `failbit`, no byte is read, the result is again the comparison of the uninitialised locals,
and the stream is left failed. -/
theorem C10_failed_stream_not_rewound :
    2 ≤ drainedStream.data.length ∧
    drainedStream.data[0]? = some (Char.ofNat 0x1F) ∧
    drainedStream.data[1]? = some (Char.ofNat 0x8B) ∧
    (IfStream.get 'c' (IfStream.get 'c' (IfStream.get 'c'
      (IfStream.get 'c' freshStream).2).2).2).2 = drainedStream ∧
    (vcfbwt.is_gzipped 'a' 'b' drainedStream).1 = false ∧
    (vcfbwt.is_gzipped 'a' 'b' drainedStream).2.pos = 3 ∧
    (vcfbwt.is_gzipped 'a' 'b' drainedStream).2.failbit = true ∧
    ((vcfbwt.is_gzipped 'a' 'b' drainedStream).2.get 'c').1 = 'c' ∧
    2 ≤ pipeStream.data.length ∧
    pipeStream.data[0]? = some (Char.ofNat 0x1F) ∧
    pipeStream.data[1]? = some (Char.ofNat 0x8B) ∧
    pipeStream.failbit = false ∧ pipeStream.badbit = false ∧ pipeStream.eofbit = false ∧
    (vcfbwt.is_gzipped 'a' 'b' pipeStream).1 = false ∧
    (vcfbwt.is_gzipped 'a' 'b' pipeStream).2.failbit = true ∧
    ((vcfbwt.is_gzipped 'a' 'b' pipeStream).2.get 'c').1 = 'c' := by
  decide

/-- Claim C10, amended (gzip detection).  Take an input stream whose buffer can be repositioned
(an open regular file, not a FIFO or pipe), on a file of at least two bytes, that is not in a
failed state on entry (`failbit` and `badbit` clear), whatever its get position and whether or not
`eofbit` is set, and whatever the uninitialised locals hold.  Then `is_gzipped` returns true
exactly when the byte at offset 0 is `0x1F` and the byte at offset 1 is `0x8B`; after the call the
file content is unchanged, the get position is `0`, no state bit is set, and the next `get` reads
the byte at offset 0. -/
theorem C10_is_gzipped_detects (f0 s0 : Char) (inp : IfStream)
    (hseek : inp.seekable = true)
    (hfail : inp.failbit = false) (hbad : inp.badbit = false) (hlen : 2 ≤ inp.data.length) :
    ((vcfbwt.is_gzipped f0 s0 inp).1 = true ↔
      inp.data[0]? = some (Char.ofNat 0x1F) ∧ inp.data[1]? = some (Char.ofNat 0x8B)) ∧
    (vcfbwt.is_gzipped f0 s0 inp).2
      = { data := inp.data, pos := 0, eofbit := false, failbit := false, badbit := false,
          seekable := true } ∧
    (∀ c : Char, ∃ b, inp.data[0]? = some b ∧
      ((vcfbwt.is_gzipped f0 s0 inp).2.get c).1 = b ∧
      ((vcfbwt.is_gzipped f0 s0 inp).2.get c).2.pos = 1 ∧
      ((vcfbwt.is_gzipped f0 s0 inp).2.get c).2.failbit = false) := by
  obtain ⟨data, pos, eofbit, failbit, badbit, seekable⟩ := inp
  simp only at hseek hfail hbad hlen
  subst hseek hfail hbad
  match data, hlen with
  | a :: b :: rest, _ =>
    refine ⟨?_, ?_, ?_⟩
    · simp [vcfbwt.is_gzipped, IfStream.seekg, IfStream.get]
    · simp [vcfbwt.is_gzipped, IfStream.seekg, IfStream.get]
    · intro c
      refine ⟨a, rfl, ?_⟩
      simp [vcfbwt.is_gzipped, IfStream.seekg, IfStream.get]

/-- Claim C10 at the sample stream: read up to its end without a failed read, it is still
recognised as gzip and is rewound to offset 0. -/
theorem C10_is_gzipped_detects_witness :
    sampleStream.seekable = true ∧
    sampleStream.failbit = false ∧ sampleStream.badbit = false ∧ 2 ≤ sampleStream.data.length ∧
    (vcfbwt.is_gzipped 'a' 'b' sampleStream).1 = true ∧
    (vcfbwt.is_gzipped 'a' 'b' sampleStream).2
      = { data := sampleStream.data, pos := 0, eofbit := false, failbit := false,
          badbit := false, seekable := true } :=
  ⟨by decide, by decide, by decide, by decide,
    (C10_is_gzipped_detects 'a' 'b' sampleStream (by decide) (by decide) (by decide)
      (by decide)).1.mpr (by decide),
    (C10_is_gzipped_detects 'a' 'b' sampleStream (by decide) (by decide) (by decide)
      (by decide)).2.1⟩

/-! ## Claim C11: the gzip check on a stream of fewer than two bytes -/

/-- On a stream of fewer than two bytes that is not failed on entry, either the first `seekg(0)`
fails, or one of the two `get` calls hits the end of the file and sets `failbit` and the second
`seekg(0)` then does nothing: the stream is left failed, whatever the uninitialised locals hold. -/
theorem is_gzipped_short_stream_fails (f0 s0 : Char) (inp : IfStream)
    (hfail : inp.failbit = false) (hbad : inp.badbit = false) (hlen : inp.data.length < 2) :
    (vcfbwt.is_gzipped f0 s0 inp).2.failbit = true := by
  obtain ⟨data, pos, eofbit, failbit, badbit, seekable⟩ := inp
  simp only at hfail hbad hlen
  subst hfail hbad
  match data, hlen with
  | [], _ => cases seekable <;> simp [vcfbwt.is_gzipped, IfStream.seekg, IfStream.get]
  | [a], _ => cases seekable <;> simp [vcfbwt.is_gzipped, IfStream.seekg, IfStream.get]

/-- Claim C11 fails on the code.  On a freshly opened empty file `is_gzipped` leaves the stream
failed and returns the comparison of its uninitialised locals: true when they happen to hold
`0x1F` and `0x8B`.  On a freshly opened file holding the single byte `0x1F` it returns true when
the second local happens to hold `0x8B`, leaves the get position at `1` with `failbit` set, and a
second call, with other garbage in the locals, returns false. -/
theorem C11_short_stream_left_failed :
    (vcfbwt.is_gzipped 'a' 'b' emptyStream).2.failbit = true ∧
    (vcfbwt.is_gzipped (Char.ofNat 0x1F) (Char.ofNat 0x8B) emptyStream).1 = true ∧
    (vcfbwt.is_gzipped 'a' (Char.ofNat 0x8B) oneByteStream).1 = true ∧
    (vcfbwt.is_gzipped 'a' (Char.ofNat 0x8B) oneByteStream).2.pos = 1 ∧
    (vcfbwt.is_gzipped 'a' (Char.ofNat 0x8B) oneByteStream).2.failbit = true ∧
    (vcfbwt.is_gzipped 'a' 'b' (vcfbwt.is_gzipped 'a' (Char.ofNat 0x8B) oneByteStream).2).1
      = false := by
  decide

/-! ## Claim C12: is the registry lock held during the accesses? -/

/-- Claim C12 fails on the code.  In `~Handler`, `setDirectory`, `getName` and `remove` the guard
is a temporary that is gone before the next statement, so every access to `temp_dir`, `counter`
and `filenames` is made without the mutex, while `DiskWrites::update`, whose guard is named, holds
its mutex during the access.  Two threads of one process inside `getName("tmp")` can therefore
both build their name before either increments the counter: both calls return the same string and
only one name is tracked, whereas run one after the other they return two names. -/
theorem C12_guard_released_before_access :
    heldAtAccesses false Handler.destructor_body
      = [(SharedVar.filenames, false), (SharedVar.filenames, false)] ∧
    heldAtAccesses false setDirectory_body = [(SharedVar.temp_dir, false)] ∧
    heldAtAccesses false getName_body
      = [(SharedVar.temp_dir, false), (SharedVar.counter, false),
         (SharedVar.filenames, false), (SharedVar.counter, false)] ∧
    heldAtAccesses false remove_body = [(SharedVar.filenames, false)] ∧
    heldAtAccesses false vcfbwt.DiskWrites.update_body = [(SharedVar.bytes_wrote, true)] ∧
    (twoCalls (hostBuffer "node7".toList) 4242 "tmp".toList
        [.build false, .build true, .commit false, .commit true]).first
      = some "./tmp_node7_4242_0".toList ∧
    (twoCalls (hostBuffer "node7".toList) 4242 "tmp".toList
        [.build false, .build true, .commit false, .commit true]).second
      = some "./tmp_node7_4242_0".toList ∧
    (twoCalls (hostBuffer "node7".toList) 4242 "tmp".toList
        [.build false, .build true, .commit false, .commit true]).state.handler.filenames.elems
      = ["./tmp_node7_4242_0".toList] ∧
    (twoCalls (hostBuffer "node7".toList) 4242 "tmp".toList
        [.build false, .commit false, .build true, .commit true]).second
      = some "./tmp_node7_4242_1".toList := by
  decide

/-- The two parts of `getName` make up the whole call. -/
theorem getName_eq_parts (hostname : Str) (pid : Nat) (name_part : Str) (s : Registry) :
    getName hostname pid name_part s
      = (getName_filename hostname pid name_part s,
         getName_commit (getName_filename hostname pid name_part s) s) :=
  rfl

/-! ## Claim C13: the result of a deletion is never used -/

/-- Claim C13 (best-effort deletion never propagates).  Whatever `std::remove` returns for each
path, `remove` reaches the same registry, leaves the same string and attempts the same deletion,
and `~Handler` reaches the same state and attempts the deletion of every tracked name, in the same
order: a failed deletion changes nothing and stops nothing.  Both are total functions: they
return normally. -/
theorem C13_deletion_result_discarded (std_remove std_remove2 : Str → Int) (filename : Str)
    (s : Registry) (h : Handler) :
    (remove std_remove filename s).state = (remove std_remove2 filename s).state ∧
    (remove std_remove filename s).filename = (remove std_remove2 filename s).filename ∧
    (remove std_remove filename s).calls.map RemoveCall.path
      = (remove std_remove2 filename s).calls.map RemoveCall.path ∧
    (Handler.destructor std_remove h).1 = (Handler.destructor std_remove2 h).1 ∧
    (Handler.destructor std_remove h).2.map RemoveCall.path = h.filenames.elems ∧
    (Handler.destructor std_remove h).2.map RemoveCall.result
      = h.filenames.elems.map std_remove ∧
    (Handler.destructor std_remove h).1.filenames.elems = [] := by
  refine ⟨?_, ?_, ?_, rfl, ?_, ?_, rfl⟩
  · unfold remove; split_ifs <;> rfl
  · unfold remove; split_ifs <;> rfl
  · unfold remove; split_ifs <;> rfl
  · simp [Handler.destructor, Function.comp_def]
  · simp [Handler.destructor, Function.comp_def]

/-! ## Claim C14: a failed truncation is reported -/

theorem to_off_t_of_lt (n : Nat) (h : n < 2 ^ 63) : to_off_t n = (n : Int) := by
  have h1 : n % SIZE_MOD = n := Nat.mod_eq_of_lt (by rw [SIZE_MOD]; omega)
  unfold to_off_t
  rw [h1, if_pos h]

/-- Claim C14 fails as stated: for `n = 2 ^ 63` the length handed to `truncate` is the negative
`off_t` value `-(2 ^ 63)`, not `n`; the operating system rejects it and the message names `n`. -/
theorem C14_huge_size_becomes_negative :
    (vcfbwt.truncate_file sampleTruncate "/tmp/x".toList (2 ^ 63)).calls
      = [⟨"/tmp/x".toList, -(2 ^ 63)⟩] ∧
    (vcfbwt.truncate_file sampleTruncate "/tmp/x".toList (2 ^ 63)).calls
      ≠ [⟨"/tmp/x".toList, 2 ^ 63⟩] ∧
    (vcfbwt.truncate_file sampleTruncate "/tmp/x".toList (2 ^ 63)).errors
      = ["Error while truncating /tmp/x to 9223372036854775808 bytes".toList] := by
  decide

/-- Claim C14, amended (truncation failure is reported, not raised).  The call
`truncate_file(path, n)` makes exactly one `truncate` call, for `path` and the length `n`
converted to `off_t`: exactly `n` bytes when `n` is below `2 ^ 63`.  It is a total function (it
returns normally).  When the operating system returns a non-zero value it hands `spdlog::error`
exactly one message, `Error while truncating path to n bytes`, which names the path and the
size; when the operating system returns zero it emits nothing. -/
theorem C14_truncate_file_reports (truncate : Str → Int → Int) (file_name : Str) (n : Nat) :
    (vcfbwt.truncate_file truncate file_name n).calls = [⟨file_name, to_off_t n⟩] ∧
    (n < 2 ^ 63 → (vcfbwt.truncate_file truncate file_name n).calls = [⟨file_name, (n : Int)⟩]) ∧
    ((vcfbwt.truncate_file truncate file_name n).errors ≠ []
      ↔ truncate file_name (to_off_t n) ≠ 0) ∧
    (truncate file_name (to_off_t n) ≠ 0 →
      (vcfbwt.truncate_file truncate file_name n).errors
        = ["Error while truncating ".toList ++ file_name ++ " to ".toList
            ++ to_string n ++ " bytes".toList]) ∧
    (truncate file_name (to_off_t n) = 0 →
      (vcfbwt.truncate_file truncate file_name n).errors = []) ∧
    (∀ e ∈ (vcfbwt.truncate_file truncate file_name n).errors,
      file_name <:+: e ∧ to_string n <:+: e) := by
  have hcalls : (vcfbwt.truncate_file truncate file_name n).calls = [⟨file_name, to_off_t n⟩] :=
    rfl
  refine ⟨hcalls, fun hn => by rw [hcalls, to_off_t_of_lt n hn], ?_⟩
  by_cases h : truncate file_name (to_off_t n) = 0
  · simp [vcfbwt.truncate_file, h]
  · refine ⟨?_, ?_, ?_, ?_⟩
    · simp [vcfbwt.truncate_file, h]
    · intro _; simp [vcfbwt.truncate_file, h]
    · intro h0; exact absurd h0 h
    · intro e he
      have he' : e = "Error while truncating ".toList ++ file_name ++ " to ".toList
          ++ to_string n ++ " bytes".toList := by
        simpa [vcfbwt.truncate_file, h] using he
      subst he'
      refine ⟨⟨"Error while truncating ".toList,
          " to ".toList ++ to_string n ++ " bytes".toList, by simp⟩,
        ⟨"Error while truncating ".toList ++ file_name ++ " to ".toList,
          " bytes".toList, by simp⟩⟩

/-- Claim C14 on a failing and on a succeeding truncation of `"/tmp/x"` to 42 bytes. -/
theorem C14_truncate_file_reports_witness :
    (42 : Nat) < 2 ^ 63 ∧
    (vcfbwt.truncate_file (fun _ _ => -1) "/tmp/x".toList 42).calls
      = [⟨"/tmp/x".toList, 42⟩] ∧
    (vcfbwt.truncate_file (fun _ _ => -1) "/tmp/x".toList 42).errors
      = ["Error while truncating /tmp/x to 42 bytes".toList] ∧
    (vcfbwt.truncate_file (fun _ _ => 0) "/tmp/x".toList 42).errors = [] :=
  ⟨by decide,
    (C14_truncate_file_reports (fun _ _ => -1) "/tmp/x".toList 42).2.1 (by decide),
    (C14_truncate_file_reports (fun _ _ => -1) "/tmp/x".toList 42).2.2.2.1 (by decide),
    (C14_truncate_file_reports (fun _ _ => 0) "/tmp/x".toList 42).2.2.2.2.1 rfl⟩

/-! ## Claim C15: one trailing separator is stripped -/

/-- Claim C15 (single-strip configuration).  For a non-empty string `d`, `setDirectory(d)` sets the
directory to `d` itself when the last character of `d` is not `/`, and to `d` without its last
character when it is: `"/tmp//"` becomes `"/tmp/"` and `"/"` becomes the empty string. -/
theorem C15_setDirectory_single_strip (d : Str) (s : Registry) (hne : d ≠ []) :
    (d.getLast? ≠ some '/' → (setDirectory d s).temp_dir = d) ∧
    (d.getLast? = some '/' →
      (setDirectory d s).temp_dir = d.dropLast ∧ (setDirectory d s).temp_dir ++ "/".toList = d) ∧
    (setDirectory "/tmp//".toList s).temp_dir = "/tmp/".toList ∧
    (setDirectory "/".toList s).temp_dir = "".toList := by
  refine ⟨?_, ?_, rfl, rfl⟩
  · intro hlast
    rw [setDirectory_of_no_separator d s hne hlast]
  · intro hlast
    rcases List.eq_nil_or_concat' d with rfl | ⟨d0, c, rfl⟩
    · exact absurd rfl hne
    · have hc : c = '/' := by simpa using hlast
      subst hc
      rw [setDirectory_of_separator]
      simp

/-- Claim C15 at the directory `"/scratch/"`. -/
theorem C15_setDirectory_single_strip_witness :
    "/scratch/".toList ≠ [] ∧
    (setDirectory "/scratch/".toList sampleState).temp_dir = "/scratch/".toList.dropLast :=
  ⟨by decide,
    ((C15_setDirectory_single_strip "/scratch/".toList sampleState (by decide)).2.1
      (by decide)).1⟩

/-! ## Claim C16: what `setDirectory` leaves alone -/

/-- Claim C16 (configure frame).  The call `setDirectory` leaves the counter and `filenames` as
they are; along a run it adds nothing to the returned names and leaves the tracked names under
their original strings; and a `getName` after it builds its name from the new directory. -/
theorem C16_setDirectory_frame (directory : Str) (s : Registry) (ops : List Op) :
    (setDirectory directory s).handler.counter = s.handler.counter ∧
    (setDirectory directory s).handler.filenames = s.handler.filenames ∧
    (exec (ops ++ [Op.setDirectory directory])).returned = (exec ops).returned ∧
    (exec (ops ++ [Op.setDirectory directory])).state.handler.filenames.elems
      = (exec ops).state.handler.filenames.elems ∧
    (exec (ops ++ [Op.setDirectory directory])).state.handler.counter
      = (exec ops).state.handler.counter ∧
    (∀ hostname pid name_part,
      (getName hostname pid name_part (setDirectory directory s)).1
        = (setDirectory directory s).temp_dir ++ "/".toList ++ name_part ++ "_".toList
            ++ c_string (hostname.set 31 NUL) ++ "_".toList
            ++ to_string pid ++ "_".toList ++ to_string s.handler.counter) := by
  refine ⟨by rw [setDirectory_handler], by rw [setDirectory_handler], ?_, ?_, ?_, ?_⟩
  · rw [exec_snoc]; rfl
  · rw [exec_snoc]; simp only [Exec.step, setDirectory_handler]
  · rw [exec_snoc]; simp only [Exec.step, setDirectory_handler]
  · intro hostname pid name_part
    have h : (getName hostname pid name_part (setDirectory directory s)).1
        = (setDirectory directory s).temp_dir ++ "/".toList ++ name_part ++ "_".toList
            ++ c_string (hostname.set 31 NUL) ++ "_".toList
            ++ to_string pid ++ "_".toList
            ++ to_string (setDirectory directory s).handler.counter := rfl
    rw [h, setDirectory_handler]

/-! ## Claim C17: the host name in a returned name -/

theorem takeWhile_append_stop (p : Char → Bool) (l : Str) (x : Char) (hx : p x = false) :
    (l ++ [x]).takeWhile p = l.takeWhile p := by
  induction l with
  | nil => simp [List.takeWhile, hx]
  | cons a t ih =>
    by_cases ha : p a = true
    · simp [List.takeWhile, ha, ih]
    · simp [List.takeWhile, ha]

theorem getElem_length_takeWhile (p : Char → Bool) (l : Str) (h : ∃ x ∈ l, p x = false) :
    ∃ y, l[(l.takeWhile p).length]? = some y ∧ p y = false := by
  induction l with
  | nil => obtain ⟨x, hx, _⟩ := h; simp at hx
  | cons a t ih =>
    by_cases ha : p a = true
    · obtain ⟨x, hx, hpx⟩ := h
      have hxt : x ∈ t := by
        rcases List.mem_cons.mp hx with rfl | hx
        · rw [ha] at hpx; exact absurd hpx (by decide)
        · exact hx
      obtain ⟨y, hy, hpy⟩ := ih ⟨x, hxt, hpx⟩
      exact ⟨y, by simpa [List.takeWhile, ha] using hy, hpy⟩
    · exact ⟨a, by simp [List.takeWhile, ha], by simpa using ha⟩

theorem set_last_of_length (l : Str) (x : Char) (n : Nat) (h : l.length = n + 1) :
    l.set n x = l.take n ++ [x] := by
  rcases List.eq_nil_or_concat' l with rfl | ⟨l0, c, rfl⟩
  · simp at h
  · have hl : l0.length = n := by simpa using h
    subst hl
    simp

/-- Claim C17 (bounded host name).  Whatever 32 bytes the operating system leaves in the
host-name buffer, also 32 bytes without any NUL, the host-name component of the name returned by
`getName` is the part of the buffer before its first NUL once byte 31 has been set to NUL: it is a
prefix of the buffer, holds no NUL, is followed by a NUL, is what precedes the first NUL among
the first 31 bytes, and has at most 31 characters. -/
theorem C17_hostname_bounded (hostname : Str) (pid : Nat) (name_part : Str) (s : Registry)
    (hlen : hostname.length = 32) :
    ∃ host : Str,
      (getName hostname pid name_part s).1
        = s.temp_dir ++ "/".toList ++ name_part ++ "_".toList ++ host ++ "_".toList
            ++ to_string pid ++ "_".toList ++ to_string s.handler.counter ∧
      host = (hostname.take 31).takeWhile (fun c => c != NUL) ∧
      host <+: hostname ∧
      NUL ∉ host ∧
      (hostname.set 31 NUL)[host.length]? = some NUL ∧
      host.length ≤ 31 := by
  have hset : hostname.set 31 NUL = hostname.take 31 ++ [NUL] :=
    set_last_of_length hostname NUL 31 hlen
  have hhost : c_string (hostname.set 31 NUL)
      = (hostname.take 31).takeWhile (fun c => c != NUL) := by
    rw [hset]
    exact takeWhile_append_stop _ _ NUL (by decide)
  refine ⟨c_string (hostname.set 31 NUL), rfl, hhost, ?_, ?_, ?_, ?_⟩
  · rw [hhost]
    exact (List.takeWhile_prefix _).trans (List.take_prefix _ _)
  · intro hmem
    have := List.mem_takeWhile_imp hmem
    simp at this
  · obtain ⟨y, hy, hpy⟩ := getElem_length_takeWhile (fun c => c != NUL) (hostname.set 31 NUL)
      ⟨NUL, by rw [hset]; simp, by decide⟩
    have hyN : y = NUL := by simpa using hpy
    rw [hyN] at hy
    exact hy
  · rw [hhost]
    have h1 := (List.takeWhile_prefix (fun c => c != NUL) (l := hostname.take 31)).length_le
    have h2 : (hostname.take 31).length ≤ 31 := by simp
    omega

/-- Claim C17 at a buffer of 32 letters `a` without terminator: the component is 31 letters. -/
theorem C17_hostname_bounded_witness :
    (List.replicate 32 'a').length = 32 ∧
    ∃ host : Str,
      (getName (List.replicate 32 'a') 4242 "tmp".toList init).1
        = init.temp_dir ++ "/".toList ++ "tmp".toList ++ "_".toList ++ host ++ "_".toList
            ++ to_string 4242 ++ "_".toList ++ to_string init.handler.counter ∧
      host = ((List.replicate 32 'a').take 31).takeWhile (fun c => c != NUL) ∧
      host <+: List.replicate 32 'a' ∧
      NUL ∉ host ∧
      ((List.replicate 32 'a').set 31 NUL)[host.length]? = some NUL ∧
      host.length ≤ 31 :=
  ⟨by decide, C17_hostname_bounded (List.replicate 32 'a') 4242 "tmp".toList init (by decide)⟩

/-! ## Claim C18: the tracked names and the counter -/

theorem mem_wrapOps (op : Op) (h : op ∈ wrapOps) : op = plainGetName :=
  List.eq_of_mem_replicate h

theorem allocations_cons_wrapOps : allocations (plainGetName :: wrapOps) = 2 ^ 64 := by
  have h : plainGetName :: wrapOps = [plainGetName] ++ wrapOps := rfl
  rw [h, allocations_append, allocations_wrapOps]
  have h1 : allocations [plainGetName] = 1 := rfl
  rw [h1]
  norm_num

theorem temp_dir_of_no_setDirectory (ops : List Op) (h : ∀ d, Op.setDirectory d ∉ ops) :
    (exec ops).state.temp_dir = DEFAULT_TEMP_DIR := by
  induction ops using List.reverseRecOn with
  | nil => rfl
  | append_singleton ops op ih =>
    have ih := ih (fun d hd => h d (List.mem_append_left _ hd))
    rw [exec_snoc]
    cases op with
    | setDirectory directory => exact absurd (by simp) (h directory)
    | getName hostname pid name_part => exact ih
    | remove filename result =>
      simp only [Exec.step, remove_temp_dir]
      exact ih

theorem StringSet.insertList_of_mem (x : Str) (l : List Str) (hs : l.Pairwise (· < ·))
    (h : x ∈ l) : StringSet.insertList x l = l := by
  induction l with
  | nil => simp at h
  | cons y ys ih =>
    unfold StringSet.insertList
    rw [List.pairwise_cons] at hs
    split_ifs with h1 h2
    · exfalso
      rcases List.mem_cons.mp h with rfl | h
      · exact lt_irrefl _ h1
      · exact lt_asymm h1 (hs.1 _ h)
    · rcases List.mem_cons.mp h with rfl | h
      · exact absurd h2 (lt_irrefl _)
      · rw [ih hs.2 h]
    · rfl

theorem getName_filenames_elems (hostname : Str) (pid : Nat) (name_part : Str) (s : Registry) :
    (getName hostname pid name_part s).2.handler.filenames.elems
      = StringSet.insertList (getName hostname pid name_part s).1 s.handler.filenames.elems :=
  rfl

/-- Claim C18 fails as stated: after `2 ^ 64` allocations without a release the counter is back at
`0`, so no tracked name carries a number below it, although the first name `./__0_0` is still
tracked; the next `getName` returns that very string again, and `filenames` does not grow. -/
theorem C18_tracked_name_not_below_counter :
    (exec (plainGetName :: wrapOps)).state.handler.counter = 0 ∧
    "./__0_0".toList ∈ (exec (plainGetName :: wrapOps)).state.handler.filenames.elems ∧
    (getName (hostBuffer []) 0 [] (exec (plainGetName :: wrapOps)).state).1 = "./__0_0".toList ∧
    (getName (hostBuffer []) 0 [] (exec (plainGetName :: wrapOps)).state).2.handler.filenames.elems
      = (exec (plainGetName :: wrapOps)).state.handler.filenames.elems := by
  have hcounter : (exec (plainGetName :: wrapOps)).state.handler.counter = 0 := by
    rw [(exec_sequence (plainGetName :: wrapOps)).2, allocations_cons_wrapOps, SIZE_MOD]
    norm_num
  have hmem : "./__0_0".toList ∈ (exec (plainGetName :: wrapOps)).state.handler.filenames.elems := by
    rw [filenames_iff_outstanding]
    refine ⟨[], wrapOps, hostBuffer [], 0, [], rfl, by decide, ?_⟩
    intro result hin
    have := mem_wrapOps _ hin
    simp [plainGetName] at this
  have hdir : (exec (plainGetName :: wrapOps)).state.temp_dir = DEFAULT_TEMP_DIR := by
    apply temp_dir_of_no_setDirectory
    intro d hd
    rcases List.mem_cons.mp hd with h | h
    · simp [plainGetName] at h
    · have := mem_wrapOps _ h
      simp [plainGetName] at this
  have hpath : (getName (hostBuffer []) 0 [] (exec (plainGetName :: wrapOps)).state).1
      = "./__0_0".toList := by
    rw [getName_fst, hdir, hcounter]
    decide
  refine ⟨hcounter, hmem, hpath, ?_⟩
  rw [getName_filenames_elems, hpath]
  exact StringSet.insertList_of_mem _ _ (exec (plainGetName :: wrapOps)).state.handler.filenames.sorted hmem

/-- Every returned name ends in `_` followed by the decimal form of its allocation index modulo
`2 ^ 64`. -/
theorem returned_shape (ops : List Op) (p : Str) (hp : p ∈ (exec ops).returned) :
    ∃ (before : Str) (n : Nat), n < allocations ops ∧
      p = before ++ '_' :: to_string (n % SIZE_MOD) := by
  induction ops using List.reverseRecOn with
  | nil => simp [exec, Exec.init] at hp
  | append_singleton ops op ih =>
    rw [exec_snoc] at hp
    have hA := allocations_snoc ops op
    cases op with
    | setDirectory directory =>
      simp only [Nat.add_zero] at hA
      obtain ⟨before, n, hn, h⟩ := ih hp
      exact ⟨before, n, by rw [hA]; exact hn, h⟩
    | getName hostname pid name_part =>
      simp only at hA
      simp only [Exec.step, List.mem_append, List.mem_singleton] at hp
      rcases hp with hp | hp
      · obtain ⟨before, n, hn, h⟩ := ih hp
        exact ⟨before, n, by omega, h⟩
      · refine ⟨(exec ops).state.temp_dir ++ '/' :: name_part
          ++ '_' :: c_string (hostname.set 31 NUL) ++ '_' :: to_string pid,
          allocations ops, by omega, ?_⟩
        rw [hp, getName_fst, (exec_sequence ops).2]
    | remove filename result =>
      simp only [Nat.add_zero] at hA
      obtain ⟨before, n, hn, h⟩ := ih hp
      exact ⟨before, n, by rw [hA]; exact hn, h⟩

/-- Claim C18, amended (tracked-name invariant).  In every state reached from program start by
`getName`, `remove` and `setDirectory` calls of which fewer than `2 ^ 64` are allocations, every
member of `filenames` ends in `_` followed by the decimal form of some `n` smaller than the
counter; therefore the name returned by the next `getName` is not yet a member and that call
makes `filenames` larger by exactly one. -/
theorem C18_tracked_names_below_counter (ops : List Op) (h : allocations ops < 2 ^ 64) :
    (∀ p ∈ (exec ops).state.handler.filenames.elems,
      ∃ (before : Str) (n : Nat), n < (exec ops).state.handler.counter ∧
        p = before ++ "_".toList ++ to_string n) ∧
    (∀ hostname pid name_part,
      (getName hostname pid name_part (exec ops).state).1
        ∉ (exec ops).state.handler.filenames.elems ∧
      (getName hostname pid name_part (exec ops).state).2.handler.filenames.elems.length
        = (exec ops).state.handler.filenames.elems.length + 1) := by
  have hcounter : (exec ops).state.handler.counter = allocations ops := by
    rw [(exec_sequence ops).2]
    exact Nat.mod_eq_of_lt h
  have hshape : ∀ p ∈ (exec ops).state.handler.filenames.elems,
      ∃ (before : Str) (n : Nat), n < (exec ops).state.handler.counter ∧
        p = before ++ "_".toList ++ to_string n := by
    intro p hp
    obtain ⟨before, n, hn, hpn⟩ := returned_shape ops p (filenames_subset_returned ops p hp)
    have hn' : n % SIZE_MOD = n := Nat.mod_eq_of_lt (lt_trans hn h)
    rw [hn'] at hpn
    exact ⟨before, n, by rw [hcounter]; exact hn, by rw [hpn]; simp⟩
  have hnew : ∀ hostname pid name_part,
      (getName hostname pid name_part (exec ops).state).1
        ∉ (exec ops).state.handler.filenames.elems := by
    intro hostname pid name_part hmem
    obtain ⟨before, n, hn, hpn⟩ := hshape _ hmem
    have h1 := lastComponent_getName hostname pid name_part (exec ops).state
    have h2 : lastComponent (getName hostname pid name_part (exec ops).state).1 = to_string n := by
      rw [hpn]
      have : before ++ "_".toList ++ to_string n = before ++ '_' :: to_string n := by simp
      rw [this]
      exact lastComponent_append _ _ (to_string_no_underscore _)
    have h3 := to_string_injective (h1.symm.trans h2)
    omega
  refine ⟨hshape, fun hostname pid name_part => ⟨hnew hostname pid name_part, ?_⟩⟩
  exact StringSet.length_insertList_of_not_mem _ _ (hnew hostname pid name_part)

/-- Claim C18 at the sample run: each of its two tracked names carries a number below the counter
`3`, and a fourth allocation adds a third tracked name. -/
theorem C18_tracked_names_below_counter_witness :
    allocations sampleOps < 2 ^ 64 ∧
    (∀ p ∈ (exec sampleOps).state.handler.filenames.elems,
      ∃ (before : Str) (n : Nat), n < (exec sampleOps).state.handler.counter ∧
        p = before ++ "_".toList ++ to_string n) ∧
    (getName (hostBuffer "node7".toList) 4242 "tmp".toList
        (exec sampleOps).state).2.handler.filenames.elems.length
      = (exec sampleOps).state.handler.filenames.elems.length + 1 :=
  ⟨by decide, (C18_tracked_names_below_counter sampleOps (by decide)).1,
    ((C18_tracked_names_below_counter sampleOps (by decide)).2
      (hostBuffer "node7".toList) 4242 "tmp".toList).2⟩

/-! ## Claim C19: release of a name that is not tracked -/

theorem StringSet.eraseList_of_not_mem (x : Str) (l : List Str) (h : x ∉ l) :
    StringSet.eraseList x l = l := by
  induction l with
  | nil => rfl
  | cons y ys ih =>
    unfold StringSet.eraseList
    have hne : x ≠ y := fun e => h (e ▸ List.mem_cons_self _ _)
    have hys : x ∉ ys := fun e => h (List.mem_cons_of_mem _ e)
    split_ifs with h1 h2
    · rfl
    · rw [ih hys]
    · exact absurd (le_antisymm (not_lt.mp h2) (not_lt.mp h1)) hne

/-- Claim C19 (release of an untracked name).  For a non-empty string that is not a member of
`filenames`, `remove` still makes one `std::remove` call on it and clears the caller's string,
and the registry after the call is the registry before it: `filenames`, the counter and the
directory are unchanged. -/
theorem C19_remove_untracked (std_remove : Str → Int) (filename : Str) (s : Registry)
    (hne : filename ≠ []) (hnot : filename ∉ s.handler.filenames.elems) :
    (remove std_remove filename s).calls.map RemoveCall.path = [filename] ∧
    (remove std_remove filename s).filename = [] ∧
    (remove std_remove filename s).state = s ∧
    (remove std_remove filename s).state.handler.filenames.elems = s.handler.filenames.elems ∧
    (remove std_remove filename s).state.handler.counter = s.handler.counter ∧
    (remove std_remove filename s).state.temp_dir = s.temp_dir := by
  have hemp : filename.isEmpty = false := by
    cases filename with
    | nil => exact absurd rfl hne
    | cons _ _ => rfl
  have hstate : (remove std_remove filename s).state = s := by
    obtain ⟨temp_dir, counter, elems, sorted⟩ := s
    simp only [remove, hemp, Bool.not_false, if_true, StringSet.erase]
    simp only at hnot
    simp [StringSet.eraseList_of_not_mem filename elems hnot]
  refine ⟨?_, ?_, hstate, ?_, remove_counter _ _ _, remove_temp_dir _ _ _⟩
  · simp [remove, hemp]
  · simp [remove, hemp]
  · rw [hstate]

/-- Claim C19 at the sample state and a name that was never allocated. -/
theorem C19_remove_untracked_witness :
    "./other".toList ≠ [] ∧ "./other".toList ∉ sampleState.handler.filenames.elems ∧
    (remove (fun _ => -1) "./other".toList sampleState).calls.map RemoveCall.path
      = ["./other".toList] ∧
    (remove (fun _ => -1) "./other".toList sampleState).state = sampleState :=
  ⟨by decide, by decide,
    (C19_remove_untracked (fun _ => -1) "./other".toList sampleState (by decide) (by decide)).1,
    (C19_remove_untracked (fun _ => -1) "./other".toList sampleState (by decide)
      (by decide)).2.2.1⟩
